import Mathlib

/-! Verification of the SSR (Semantic Similarity Rating) scoring engine.

The development shallowly embeds the scoring core of the repository:

* src/src/ssr/scorer.ts       : cosineSimilarity, similarityToPmf,
                                DEFAULT_ANCHOR_SETS, SsrScorer (anchor
                                embedding cache, scoreAnswer)
* src/src/ssr/score-answers.ts: scoreAllAnswers
* src/src/ssr/voyage-provider.ts: the provider-level text-keyed cache

JavaScript floating point numbers are modelled as real numbers; thrown
exceptions are modelled with Except over the error taxonomy below; the
asynchronous embedding provider is modelled as a deterministic embedding
function String -> List Real together with an explicit log of the calls
issued to it; JavaScript Map objects are modelled as association lists
whose lookup returns the most recently inserted binding for a key, which
matches Map.get after Map.set.
-/

/-- Error taxonomy of the scoring core: the three distinct throw sites of
scorer.ts. In the source these are untyped Error values distinguished by
message; the constructors carry the data interpolated into each message. -/
inductive SsrError where
  | dimensionMismatch : SsrError
  | unknownQuestionType : String → SsrError
  | noAnchorSet : String → ℕ → SsrError
deriving DecidableEq

/-- Embedding of cosineSimilarity (scorer.ts lines 3-22). The loop over
indices accumulates the dot product and the two squared norms; with equal
lengths these are the zipWith/map sums below. A length mismatch throws. -/
noncomputable def cosineSimilarity (vecA vecB : List ℝ) : Except SsrError ℝ :=
  if vecA.length ≠ vecB.length then .error .dimensionMismatch
  else
    let dotProduct := (List.zipWith (fun x y => x * y) vecA vecB).sum
    let normA := (vecA.map (fun x => x * x)).sum
    let normB := (vecB.map (fun x => x * x)).sum
    let denominator := Real.sqrt normA * Real.sqrt normB
    if denominator = 0 then .ok 0 else .ok (dotProduct / denominator)

/-- The value cosineSimilarity returns on equal-length inputs. -/
noncomputable def cosineSimilarityVal (vecA vecB : List ℝ) : ℝ :=
  let dotProduct := (List.zipWith (fun x y => x * y) vecA vecB).sum
  let normA := (vecA.map (fun x => x * x)).sum
  let normB := (vecB.map (fun x => x * x)).sum
  let denominator := Real.sqrt normA * Real.sqrt normB
  if denominator = 0 then 0 else dotProduct / denominator

/-- Embedding of the JavaScript spread Math.max(...l): the maximum of a
nonempty list. The scorer only ever applies it to the five scaled
similarities, so the empty case (JavaScript -Infinity, which has no real
counterpart) is given an arbitrary value and never relied upon. -/
noncomputable def listMax : List ℝ → ℝ
  | [] => 0
  | [x] => x
  | x :: y :: rest => max x (listMax (y :: rest))

/-- Embedding of similarityToPmf (scorer.ts lines 24-41): temperature
scaling, max-subtracted exponentiation, epsilon floor, and the two
normalizations (the softmax denominator plus the final explicit one). -/
noncomputable def similarityToPmf (similarities : List ℝ) (epsilon temperature : ℝ) : List ℝ :=
  let scaledSims := similarities.map (fun s => s / temperature)
  let maxSim := listMax scaledSims
  let expSims := scaledSims.map (fun s => Real.exp (s - maxSim))
  let sum := expSims.sum + epsilon * similarities.length
  let pmf := expSims.map (fun e => (e + epsilon) / sum)
  let pmfSum := pmf.sum
  pmf.map (fun p => p / pmfSum)

/-- Default epsilon of the scorer (scorer.ts line 162). -/
noncomputable def defaultEpsilon : ℝ := 1e-8

/-- Default temperature of the scorer (scorer.ts line 163). -/
noncomputable def defaultTemperature : ℝ := 1

section ListHelpers

lemma sum_map_div {α : Type} (l : List α) (f : α → ℝ) (c : ℝ) :
    (l.map (fun x => f x / c)).sum = (l.map f).sum / c := by
  induction l with
  | nil => simp
  | cons a t ih => simp [ih, add_div]

lemma sum_map_add_const {α : Type} (l : List α) (f : α → ℝ) (c : ℝ) :
    (l.map (fun x => f x + c)).sum = (l.map f).sum + l.length * c := by
  induction l with
  | nil => simp
  | cons a t ih => simp [ih]; ring

lemma sum_map_mul_const {α : Type} (l : List α) (f : α → ℝ) (c : ℝ) :
    (l.map f).sum * c = (l.map (fun x => f x * c)).sum := by
  induction l with
  | nil => simp
  | cons a t ih => simp [← ih]; ring

lemma getD_append_length (l r : List ℝ) (a d : ℝ) :
    (l ++ a :: r).getD l.length d = a := by
  induction l with
  | nil => simp
  | cons x t ih => simpa using ih

end ListHelpers

section PmfLemmas

lemma listMax_cons (x : ℝ) (l : List ℝ) (h : l ≠ []) :
    listMax (x :: l) = max x (listMax l) := by
  cases l with
  | nil => exact absurd rfl h
  | cons y rest => rfl

lemma le_listMax (l : List ℝ) (x : ℝ) (hx : x ∈ l) : x ≤ listMax l := by
  induction l with
  | nil => cases hx
  | cons a t ih =>
    cases t with
    | nil =>
      rcases List.mem_singleton.mp hx with rfl
      exact le_refl _
    | cons b rest =>
      rcases List.mem_cons.mp hx with rfl | hmem
      · exact le_max_left _ _
      · exact le_trans (ih hmem) (le_max_right _ _)

lemma listMax_append_cons (P Q : List ℝ) (a : ℝ) (h : P ++ Q ≠ []) :
    listMax (P ++ a :: Q) = max a (listMax (P ++ Q)) := by
  induction P with
  | nil =>
    simp only [List.nil_append] at h ⊢
    exact listMax_cons a Q h
  | cons b P ih =>
    cases hPQ : P ++ Q with
    | nil =>
      rcases List.append_eq_nil.mp hPQ with ⟨rfl, rfl⟩
      simp [listMax, max_comm]
    | cons z zs =>
      have hne : P ++ Q ≠ [] := by simp [hPQ]
      have h1 : P ++ a :: Q ≠ [] := by
        cases P <;> simp
      calc listMax (b :: P ++ a :: Q)
          = max b (listMax (P ++ a :: Q)) := listMax_cons b _ h1
        _ = max b (max a (listMax (P ++ Q))) := by rw [ih hne]
        _ = max a (max b (listMax (P ++ Q))) := max_left_comm _ _ _
        _ = max a (listMax (b :: P ++ Q)) := by rw [← listMax_cons b _ hne]; rfl

/-- The double normalization of similarityToPmf collapses, in exact real
arithmetic, to a single division by the floored softmax denominator. -/
lemma similarityToPmf_canonical (l : List ℝ) (epsilon temperature : ℝ)
    (hl : l ≠ []) (he : 0 ≤ epsilon) :
    similarityToPmf l epsilon temperature =
      l.map (fun s =>
        (Real.exp (s / temperature - listMax (l.map (fun u => u / temperature))) + epsilon) /
          ((l.map (fun u =>
            Real.exp (u / temperature - listMax (l.map (fun v => v / temperature))) + epsilon)).sum)) := by
  simp only [similarityToPmf]
  set m := listMax (l.map (fun u => u / temperature)) with hm
  set T := (l.map (fun u => Real.exp (u / temperature - m) + epsilon)).sum with hT
  have hTpos : 0 < T := by
    rw [hT]
    apply List.sum_pos
    · intro x hx
      rcases List.mem_map.mp hx with ⟨u, _, rfl⟩
      have := Real.exp_pos (u / temperature - m)
      linarith
    · simpa using hl
  have hmaps :
      (l.map (fun s => s / temperature)).map (fun s => Real.exp (s - m)) =
        l.map (fun s => Real.exp (s / temperature - m)) := by
    simp [List.map_map, Function.comp_def]
  rw [hmaps]
  have hsum_eq :
      (l.map (fun s => Real.exp (s / temperature - m))).sum + epsilon * l.length = T := by
    rw [hT, sum_map_add_const l (fun u => Real.exp (u / temperature - m)) epsilon]
    ring
  rw [hsum_eq]
  have hmap :
      (l.map (fun s => Real.exp (s / temperature - m))).map (fun e => (e + epsilon) / T) =
      l.map (fun s => (Real.exp (s / temperature - m) + epsilon) / T) := by
    simp [List.map_map, Function.comp_def]
  rw [hmap]
  have hpmfsum :
      (l.map (fun s => (Real.exp (s / temperature - m) + epsilon) / T)).sum = 1 := by
    rw [sum_map_div, ← hT, div_self (ne_of_gt hTpos)]
  rw [hpmfsum]
  simp

lemma similarityToPmf_length (l : List ℝ) (epsilon temperature : ℝ) :
    (similarityToPmf l epsilon temperature).length = l.length := by
  simp [similarityToPmf]

lemma similarityToPmf_sum_one (l : List ℝ) (epsilon temperature : ℝ)
    (hl : l ≠ []) (he : 0 ≤ epsilon) :
    (similarityToPmf l epsilon temperature).sum = 1 := by
  rw [similarityToPmf_canonical l epsilon temperature hl he]
  set m := listMax (l.map (fun u => u / temperature)) with hm
  set T := (l.map (fun u => Real.exp (u / temperature - m) + epsilon)).sum with hT
  have hTpos : 0 < T := by
    rw [hT]
    apply List.sum_pos
    · intro x hx
      rcases List.mem_map.mp hx with ⟨u, _, rfl⟩
      have := Real.exp_pos (u / temperature - m)
      linarith
    · simpa using hl
  rw [sum_map_div, ← hT, div_self (ne_of_gt hTpos)]

lemma similarityToPmf_pos (l : List ℝ) (epsilon temperature : ℝ)
    (hl : l ≠ []) (he : 0 ≤ epsilon) :
    ∀ p ∈ similarityToPmf l epsilon temperature, 0 < p := by
  rw [similarityToPmf_canonical l epsilon temperature hl he]
  set m := listMax (l.map (fun u => u / temperature)) with hm
  set T := (l.map (fun u => Real.exp (u / temperature - m) + epsilon)).sum with hT
  have hTpos : 0 < T := by
    rw [hT]
    apply List.sum_pos
    · intro x hx
      rcases List.mem_map.mp hx with ⟨u, _, rfl⟩
      have := Real.exp_pos (u / temperature - m)
      linarith
    · simpa using hl
  intro p hp
  rcases List.mem_map.mp hp with ⟨s, _, rfl⟩
  apply div_pos _ hTpos
  have := Real.exp_pos (s / temperature - m)
  linarith

end PmfLemmas

section Monotonicity

lemma max_shift (x x' u : ℝ) (h : x ≤ x') : x + max x' u ≤ x' + max x u := by
  rcases le_total x' u with hc | hc
  · have hxu : x ≤ u := le_trans h hc
    rw [max_eq_right hc, max_eq_right hxu]
    linarith
  · rw [max_eq_left hc]
    rcases le_total x u with hc2 | hc2
    · rw [max_eq_right hc2]
      linarith
    · rw [max_eq_left hc2]
      linarith

/-- Core monotonicity of the epsilon-floored softmax in one coordinate,
after eliminating the max-subtraction by scaling with exp of the maximum.
A is the sum of the exponentials of the other coordinates, u their maximum. -/
lemma pmf_mono_core (x x' u A epsilon : ℝ) (hxx : x ≤ x') (hA : 0 < A) (he : 0 ≤ epsilon) :
    (Real.exp x + epsilon * Real.exp (max x u)) /
      (A + Real.exp x + 5 * (epsilon * Real.exp (max x u))) ≤
    (Real.exp x' + epsilon * Real.exp (max x' u)) /
      (A + Real.exp x' + 5 * (epsilon * Real.exp (max x' u))) := by
  have he0 : 0 < Real.exp x := Real.exp_pos x
  have he0' : 0 < Real.exp x' := Real.exp_pos x'
  have hE0 : 0 < Real.exp (max x u) := Real.exp_pos _
  have hE0' : 0 < Real.exp (max x' u) := Real.exp_pos _
  have hee : Real.exp x ≤ Real.exp x' := Real.exp_le_exp.mpr hxx
  have hEE : Real.exp (max x u) ≤ Real.exp (max x' u) :=
    Real.exp_le_exp.mpr (max_le_max hxx (le_refl u))
  have hcross : Real.exp x * Real.exp (max x' u) ≤ Real.exp x' * Real.exp (max x u) := by
    rw [← Real.exp_add, ← Real.exp_add]
    exact Real.exp_le_exp.mpr (max_shift x x' u hxx)
  have hden : 0 < A + Real.exp x + 5 * (epsilon * Real.exp (max x u)) := by
    have : 0 ≤ epsilon * Real.exp (max x u) := mul_nonneg he hE0.le
    linarith
  have hden' : 0 < A + Real.exp x' + 5 * (epsilon * Real.exp (max x' u)) := by
    have : 0 ≤ epsilon * Real.exp (max x' u) := mul_nonneg he hE0'.le
    linarith
  rw [div_le_div_iff hden hden']
  nlinarith [mul_nonneg hA.le (sub_nonneg.mpr hee),
    mul_nonneg (mul_nonneg he hA.le) (sub_nonneg.mpr hEE),
    mul_nonneg he (sub_nonneg.mpr hcross)]

/-- Closed form of the probability that similarityToPmf assigns to the
coordinate holding s, with the other coordinates fixed as pre and post. -/
lemma similarityToPmf_getD_closed (pre post : List ℝ) (s epsilon temperature : ℝ)
    (hne : pre ++ post ≠ []) (he : 0 ≤ epsilon) :
    (similarityToPmf (pre ++ s :: post) epsilon temperature).getD pre.length 0 =
      (Real.exp (s / temperature) +
        epsilon * Real.exp (max (s / temperature)
          (listMax ((pre ++ post).map (fun u => u / temperature))))) /
      (((pre ++ post).map (fun u => Real.exp (u / temperature))).sum + Real.exp (s / temperature) +
        ((pre ++ s :: post).length : ℝ) *
          (epsilon * Real.exp (max (s / temperature)
            (listMax ((pre ++ post).map (fun u => u / temperature)))))) := by
  have hlne : pre ++ s :: post ≠ [] := by
    cases pre <;> simp
  have hmne : pre.map (fun u => u / temperature) ++ post.map (fun u => u / temperature) ≠ [] := by
    rw [← List.map_append]
    simp only [ne_eq, List.map_eq_nil_iff]
    exact hne
  have hmax0 : listMax ((pre ++ s :: post).map (fun u => u / temperature)) =
      max (s / temperature) (listMax ((pre ++ post).map (fun u => u / temperature))) := by
    rw [List.map_append, List.map_cons, listMax_append_cons _ _ _ hmne, ← List.map_append]
  rw [similarityToPmf_canonical _ epsilon temperature hlne he, hmax0]
  set m := max (s / temperature) (listMax ((pre ++ post).map (fun u => u / temperature))) with hmdef
  set E := Real.exp m with hEdef
  have hE0 : 0 < E := Real.exp_pos m
  set T := ((pre ++ s :: post).map (fun u => Real.exp (u / temperature - m) + epsilon)).sum with hT
  have hsplit : (pre ++ s :: post).map (fun v => (Real.exp (v / temperature - m) + epsilon) / T) =
      pre.map (fun v => (Real.exp (v / temperature - m) + epsilon) / T) ++
        ((Real.exp (s / temperature - m) + epsilon) / T) ::
        post.map (fun v => (Real.exp (v / temperature - m) + epsilon) / T) := by
    simp
  rw [hsplit]
  have hgd := getD_append_length (pre.map (fun v => (Real.exp (v / temperature - m) + epsilon) / T))
      (post.map (fun v => (Real.exp (v / temperature - m) + epsilon) / T))
      ((Real.exp (s / temperature - m) + epsilon) / T) 0
  rw [List.length_map] at hgd
  rw [hgd]
  have hgsE : (Real.exp (s / temperature - m) + epsilon) * E =
      Real.exp (s / temperature) + epsilon * E := by
    rw [add_mul, Real.exp_sub, div_mul_cancel₀ _ (ne_of_gt hE0)]
  have hTE : T * E = ((pre ++ post).map (fun u => Real.exp (u / temperature))).sum +
      Real.exp (s / temperature) + ((pre ++ s :: post).length : ℝ) * (epsilon * E) := by
    rw [hT, sum_map_mul_const]
    have hcongr : (pre ++ s :: post).map (fun u => (Real.exp (u / temperature - m) + epsilon) * E) =
        (pre ++ s :: post).map (fun u => Real.exp (u / temperature) + epsilon * E) :=
      List.map_congr_left (fun a _ => by rw [add_mul, Real.exp_sub, div_mul_cancel₀ _ (ne_of_gt hE0)])
    rw [hcongr, sum_map_add_const]
    have hsum_split : ((pre ++ s :: post).map (fun u => Real.exp (u / temperature))).sum =
        ((pre ++ post).map (fun u => Real.exp (u / temperature))).sum + Real.exp (s / temperature) := by
      simp only [List.map_append, List.sum_append, List.map_cons, List.sum_cons]
      ring
    rw [hsum_split]
  rw [← hgsE, ← hTE]
  rw [mul_comm T E, ← div_div, mul_div_assoc, div_self (ne_of_gt hE0), mul_one]

end Monotonicity

/-- C2: for any five similarities, any positive temperature and any
nonnegative epsilon, similarityToPmf returns five probabilities that sum
to exactly one (in real arithmetic) and are each strictly positive, even
when every similarity is zero or negative. -/
theorem similarityToPmf_valid_distribution (similarities : List ℝ) (epsilon temperature : ℝ)
    (h5 : similarities.length = 5) (ht : 0 < temperature) (he : 0 ≤ epsilon) :
    (similarityToPmf similarities epsilon temperature).length = 5 ∧
    (similarityToPmf similarities epsilon temperature).sum = 1 ∧
    ∀ p ∈ similarityToPmf similarities epsilon temperature, 0 < p := by
  have hl : similarities ≠ [] := by
    intro hcon
    rw [hcon] at h5
    simp at h5
  exact ⟨by rw [similarityToPmf_length, h5],
    similarityToPmf_sum_one similarities epsilon temperature hl he,
    similarityToPmf_pos similarities epsilon temperature hl he⟩

theorem similarityToPmf_valid_distribution_witness :
    (similarityToPmf [0, -1, -2, 0, 0] defaultEpsilon defaultTemperature).length = 5 ∧
    (similarityToPmf [0, -1, -2, 0, 0] defaultEpsilon defaultTemperature).sum = 1 ∧
    ∀ p ∈ similarityToPmf [0, -1, -2, 0, 0] defaultEpsilon defaultTemperature, 0 < p :=
  similarityToPmf_valid_distribution [0, -1, -2, 0, 0] defaultEpsilon defaultTemperature
    rfl (by norm_num [defaultTemperature]) (by norm_num [defaultEpsilon])

/-- C6: the probability similarityToPmf assigns to a coordinate is
monotonically non-decreasing in that coordinate's similarity, the other
four similarities held fixed, for any positive temperature and any
nonnegative epsilon. The coordinate is written as the element between
pre and post, so the statement covers every index of a 5-element list. -/
theorem similarityToPmf_monotone (pre post : List ℝ) (s s' epsilon temperature : ℝ)
    (hlen : pre.length + post.length = 4) (hss : s ≤ s')
    (ht : 0 < temperature) (he : 0 ≤ epsilon) :
    (similarityToPmf (pre ++ s :: post) epsilon temperature).getD pre.length 0 ≤
    (similarityToPmf (pre ++ s' :: post) epsilon temperature).getD pre.length 0 := by
  have hne : pre ++ post ≠ [] := by
    intro hcon
    have := congrArg List.length hcon
    rw [List.length_append, hlen] at this
    simp at this
  rw [similarityToPmf_getD_closed pre post s epsilon temperature hne he,
    similarityToPmf_getD_closed pre post s' epsilon temperature hne he]
  have hLnat : (pre ++ s :: post).length = 5 := by
    rw [List.length_append, List.length_cons]
    omega
  have hLnat' : (pre ++ s' :: post).length = 5 := by
    rw [List.length_append, List.length_cons]
    omega
  have hL : ((pre ++ s :: post).length : ℝ) = 5 := by
    rw [hLnat]
    norm_num
  have hL' : ((pre ++ s' :: post).length : ℝ) = 5 := by
    rw [hLnat']
    norm_num
  rw [hL, hL']
  have hA : 0 < ((pre ++ post).map (fun u => Real.exp (u / temperature))).sum := by
    apply List.sum_pos
    · intro x hx
      rcases List.mem_map.mp hx with ⟨u, _, rfl⟩
      exact Real.exp_pos _
    · simpa using hne
  have hx : s / temperature ≤ s' / temperature := by gcongr
  exact pmf_mono_core (s / temperature) (s' / temperature)
    (listMax ((pre ++ post).map (fun u => u / temperature)))
    (((pre ++ post).map (fun u => Real.exp (u / temperature))).sum) epsilon hx hA he

theorem similarityToPmf_monotone_witness :
    (similarityToPmf ([0, 0] ++ (0 : ℝ) :: [0, 0]) defaultEpsilon defaultTemperature).getD
        (List.length [0, 0]) 0 ≤
    (similarityToPmf ([0, 0] ++ (1 : ℝ) :: [0, 0]) defaultEpsilon defaultTemperature).getD
        (List.length [0, 0]) 0 :=
  similarityToPmf_monotone [0, 0] [0, 0] 0 1 defaultEpsilon defaultTemperature
    rfl (by norm_num) (by norm_num [defaultTemperature]) (by norm_num [defaultEpsilon])

/-- C5: cosineSimilarity fails with DimensionMismatch exactly when the two
vectors have different lengths; on equal-length vectors it always succeeds,
returning the dot product divided by the product of the Euclidean norms,
and returning exactly zero whenever either norm is zero. -/
theorem cosineSimilarity_spec (a b : List ℝ) :
    (cosineSimilarity a b = .error .dimensionMismatch ↔ a.length ≠ b.length) ∧
    (a.length = b.length → cosineSimilarity a b = .ok (cosineSimilarityVal a b)) ∧
    (a.length = b.length →
      Real.sqrt ((a.map (fun x => x * x)).sum) * Real.sqrt ((b.map (fun x => x * x)).sum) ≠ 0 →
      cosineSimilarity a b =
        .ok ((List.zipWith (fun x y => x * y) a b).sum /
          (Real.sqrt ((a.map (fun x => x * x)).sum) * Real.sqrt ((b.map (fun x => x * x)).sum)))) ∧
    (a.length = b.length →
      (Real.sqrt ((a.map (fun x => x * x)).sum) = 0 ∨ Real.sqrt ((b.map (fun x => x * x)).sum) = 0) →
      cosineSimilarity a b = .ok 0) := by
  have hok : a.length = b.length → cosineSimilarity a b = .ok (cosineSimilarityVal a b) := by
    intro hlen
    simp only [cosineSimilarity, cosineSimilarityVal]
    rw [if_neg (not_not.mpr hlen)]
    split <;> rfl
  refine ⟨⟨?_, ?_⟩, hok, ?_, ?_⟩
  · intro h
    by_contra hcon
    rw [hok hcon] at h
    exact absurd h (by simp)
  · intro hne
    simp only [cosineSimilarity]
    rw [if_pos hne]
  · intro hlen hden
    rw [hok hlen]
    simp only [cosineSimilarityVal]
    rw [if_neg hden]
  · intro hlen hzero
    rw [hok hlen]
    simp only [cosineSimilarityVal]
    rw [if_pos (mul_eq_zero.mpr hzero)]

/-- Embedding of the AnchorSet shape (scorer.ts lines 43-45): a mapping
from the five ordinal levels to a reference statement each. Every anchor
set the source defines has exactly the keys 1..5, modelled as five fields. -/
structure AnchorSet where
  l1 : String
  l2 : String
  l3 : String
  l4 : String
  l5 : String

/-- The list [1,2,3,4,5].map(level => anchorSet[level]) built by
getAnchorEmbeddings (scorer.ts line 182). -/
def anchorStatements (a : AnchorSet) : List String :=
  [a.l1, a.l2, a.l3, a.l4, a.l5]

/-- The six anchor sets of the built-in question type ease
(scorer.ts lines 48-91). -/
def easeAnchorSets : List AnchorSet :=
  [⟨"This was extremely difficult. I could not complete the task at all.",
    "This was quite difficult. I struggled significantly to make progress.",
    "This was moderately easy. I encountered some friction but got through.",
    "This was fairly easy. I had only minor issues.",
    "This was very easy. I completed the task effortlessly."⟩,
   ⟨"Impossible to use. The interface was completely confusing.",
    "Very hard to figure out. I got stuck multiple times.",
    "Somewhat straightforward. A few confusing moments.",
    "Pretty intuitive. Found my way without much trouble.",
    "Extremely intuitive. Everything was exactly where I expected."⟩,
   ⟨"I gave up. This was too frustrating to continue.",
    "I almost gave up. Required significant effort to persist.",
    "I managed, but it took some effort to figure things out.",
    "Mostly smooth experience with minor hiccups.",
    "Completely smooth. No obstacles whatsoever."⟩,
   ⟨"The worst user experience I\x27ve ever had.",
    "A poor user experience with many problems.",
    "An average user experience, neither great nor terrible.",
    "A good user experience with room for improvement.",
    "An excellent user experience, very well designed."⟩,
   ⟨"I would never recommend this to anyone.",
    "I would warn others about the difficulty.",
    "I might mention it\x27s a bit tricky to use.",
    "I would say it\x27s pretty easy to use.",
    "I would highly recommend it for its ease of use."⟩,
   ⟨"Completely failed to accomplish what I wanted.",
    "Barely accomplished my goal after much struggle.",
    "Accomplished my goal with moderate effort.",
    "Accomplished my goal fairly efficiently.",
    "Accomplished my goal quickly and easily."⟩]

/-- The six anchor sets of the built-in question type trust
(scorer.ts lines 92-135). -/
def trustAnchorSets : List AnchorSet :=
  [⟨"I don\x27t trust this site at all. It feels suspicious and unsafe.",
    "I have significant concerns about this site\x27s trustworthiness.",
    "I\x27m neutral. The site seems neither trustworthy nor untrustworthy.",
    "I mostly trust this site. It appears legitimate.",
    "I completely trust this site. I would share sensitive information."⟩,
   ⟨"This site looks like a scam. I would never enter my information.",
    "This site feels unprofessional and raises red flags.",
    "This site seems okay but I\x27m not fully confident.",
    "This site looks professional and reliable.",
    "This site is clearly trustworthy and secure."⟩,
   ⟨"I feel very unsafe using this website.",
    "I feel somewhat uneasy about security on this site.",
    "I don\x27t have strong feelings about security either way.",
    "I feel reasonably secure using this site.",
    "I feel completely safe and secure on this website."⟩,
   ⟨"I would never give my credit card to this site.",
    "I would be very hesitant to make a purchase here.",
    "I might consider a purchase but with caution.",
    "I would be comfortable making a purchase.",
    "I would have no hesitation buying from this site."⟩,
   ⟨"This site seems designed to deceive users.",
    "This site has some deceptive or dark patterns.",
    "This site is fairly straightforward in its presentation.",
    "This site is transparent and honest in its design.",
    "This site is exemplary in its honesty and transparency."⟩,
   ⟨"I feel this site is actively trying to harm users.",
    "I feel this site doesn\x27t have users\x27 best interests at heart.",
    "I feel this site is indifferent to user wellbeing.",
    "I feel this site cares about its users.",
    "I feel this site genuinely prioritizes user wellbeing."⟩]

/-- Embedding of DEFAULT_ANCHOR_SETS (scorer.ts lines 47-136): a
JavaScript object with exactly the keys ease and trust; any other
property access yields undefined, modelled as none. -/
def DEFAULT_ANCHOR_SETS : String → Option (List AnchorSet) :=
  fun questionType =>
    if questionType = "ease" then some easeAnchorSets
    else if questionType = "trust" then some trustAnchorSets
    else none

/-- Embedding of the SsrScorer instance fields (scorer.ts lines 152-165).
The asynchronous provider is modelled as the deterministic embedding
function embedFn; each provider.embed call is recorded in the score
state's call log instead. -/
structure SsrScorer where
  embedFn : String → List ℝ
  anchorSets : String → Option (List AnchorSet)
  epsilon : ℝ
  temperature : ℝ

/-- The mutable state threaded through a scoring run: the scorer's
anchorEmbeddingsCache (a Map from string keys to embedding matrices,
as an association list whose lookup sees the newest insertion first,
matching Map.get after Map.set) and the log of provider.embed calls,
each call recorded as the list of texts passed to it. -/
structure ScoreState where
  cache : List (String × List (List ℝ))
  calls : List (List String)

/-- The state of a freshly constructed SsrScorer: empty cache, no calls. -/
def initialScoreState : ScoreState := ⟨[], []⟩

/-- The template literal of scorer.ts line 171. -/
def cacheKey (questionType : String) (anchorSetIndex : ℕ) : String :=
  questionType ++ ":" ++ toString anchorSetIndex

/-- The optional chain this.anchorSets[questionType]?.[anchorSetIndex]
of scorer.ts line 175: undefined (none) when the question type is absent
or the index is out of range. -/
def catalogSet (sc : SsrScorer) (questionType : String) (anchorSetIndex : ℕ) :
    Option AnchorSet :=
  (sc.anchorSets questionType).bind (fun sets => sets[anchorSetIndex]?)

/-- Embedding of SsrScorer.getAnchorEmbeddings (scorer.ts lines 167-187):
return the cached matrix when the key is present (any JavaScript array is
truthy, so presence alone decides), otherwise look the anchor set up in
the catalog, embed its five statements in one provider call, and cache. -/
def getAnchorEmbeddings (sc : SsrScorer) (questionType : String) (anchorSetIndex : ℕ)
    (st : ScoreState) : Except SsrError (List (List ℝ) × ScoreState) :=
  match st.cache.lookup (cacheKey questionType anchorSetIndex) with
  | some cached => .ok (cached, st)
  | none =>
    match catalogSet sc questionType anchorSetIndex with
    | none => .error (.noAnchorSet questionType anchorSetIndex)
    | some anchorSet =>
      let anchors := anchorStatements anchorSet
      let embeddings := anchors.map sc.embedFn
      .ok (embeddings,
        { cache := (cacheKey questionType anchorSetIndex, embeddings) :: st.cache,
          calls := st.calls ++ [anchors] })

/-- The anchorEmbeddings.map(anchor => cosineSimilarity(answerEmbedding,
anchor)) of scorer.ts lines 205-207; a throw inside the map aborts it,
so the first error propagates. -/
noncomputable def computeSimilarities (answerEmbedding : List ℝ) :
    List (List ℝ) → Except SsrError (List ℝ)
  | [] => .ok []
  | anchor :: rest =>
    match cosineSimilarity answerEmbedding anchor with
    | .error e => .error e
    | .ok sim =>
      match computeSimilarities answerEmbedding rest with
      | .error e => .error e
      | .ok sims => .ok (sim :: sims)

/-- The for loop of scoreAnswer (scorer.ts lines 202-215), run over the
listed anchor-set indices: fetch the anchor embeddings (possibly from
cache), compute the five similarities, convert them to a pmf, collect. -/
noncomputable def runSets (sc : SsrScorer) (questionType : String) (answerEmbedding : List ℝ) :
    List ℕ → ScoreState → Except SsrError (List (List ℝ) × ScoreState)
  | [], st => .ok ([], st)
  | i :: rest, st =>
    match getAnchorEmbeddings sc questionType i st with
    | .error e => .error e
    | .ok (anchorEmbeddings, st1) =>
      match computeSimilarities answerEmbedding anchorEmbeddings with
      | .error e => .error e
      | .ok similarities =>
        match runSets sc questionType answerEmbedding rest st1 with
        | .error e => .error e
        | .ok (dists, st2) =>
          .ok (similarityToPmf similarities sc.epsilon sc.temperature :: dists, st2)

/-- The averaging loop of scorer.ts lines 217-222: avgDistribution[i]
accumulates dist[i] / distributions.length over all distributions. -/
noncomputable def avgDistribution (distributions : List (List ℝ)) : List ℝ :=
  (List.range 5).map (fun i =>
    (distributions.map (fun dist => dist.getD i 0 / (distributions.length : ℝ))).sum)

/-- The reduce of scorer.ts lines 224-227: sum + prob * (i + 1). -/
noncomputable def expectedScoreOf (p : List ℝ) : ℝ :=
  p.enum.foldl (fun sum ip => sum + ip.2 * ((ip.1 : ℝ) + 1)) 0

/-- The reduce of scorer.ts lines 229-234: probabilities not strictly
positive contribute nothing. -/
noncomputable def entropyOf (p : List ℝ) : ℝ :=
  p.foldl (fun sum prob => if 0 < prob then sum - prob * Real.logb 2 prob else sum) 0

/-- Embedding of ScoreResult (scorer.ts lines 145-150). -/
structure ScoreResult where
  distribution : List ℝ
  expectedScore : ℝ
  entropy : ℝ
  anchorSetCount : ℕ

/-- Embedding of SsrScorer.scoreAnswer (scorer.ts lines 189-242). -/
noncomputable def scoreAnswer (sc : SsrScorer) (questionType freeTextAnswer : String)
    (st : ScoreState) : Except SsrError (ScoreResult × ScoreState) :=
  match sc.anchorSets questionType with
  | none => .error (.unknownQuestionType questionType)
  | some sets =>
    if sets.length = 0 then .error (.unknownQuestionType questionType)
    else
      let answerEmbedding := sc.embedFn freeTextAnswer
      let st1 : ScoreState := { st with calls := st.calls ++ [[freeTextAnswer]] }
      match runSets sc questionType answerEmbedding (List.range sets.length) st1 with
      | .error e => .error e
      | .ok (distributions, st2) =>
        let avg := avgDistribution distributions
        .ok ({ distribution := avg,
               expectedScore := expectedScoreOf avg,
               entropy := entropyOf avg,
               anchorSetCount := sets.length }, st2)

/-- Embedding of the per-question record of score-answers.ts lines 6-11:
the spread of the ScoreResult plus the original answer text. -/
structure ScoredAnswer where
  result : ScoreResult
  answer : String

/-- Embedding of the summary of score-answers.ts lines 12-16. -/
structure SsrSummary where
  averageExpectedScore : ℝ
  averageEntropy : ℝ
  questionCount : ℕ

/-- Embedding of SsrScoresResult (score-answers.ts lines 6-17); the
scores object is an association list in insertion order (the input is a
JavaScript record, so its question ids are distinct). -/
structure SsrScoresResult where
  scores : List (String × ScoredAnswer)
  summary : SsrSummary

/-- The scorer that new SsrScorer({provider}) constructs
(score-answers.ts line 24 with scorer.ts lines 159-165): the default
anchor catalog, epsilon and temperature. -/
noncomputable def defaultScorer (embedFn : String → List ℝ) : SsrScorer :=
  ⟨embedFn, DEFAULT_ANCHOR_SETS, defaultEpsilon, defaultTemperature⟩

/-- The loop of scoreAllAnswers (score-answers.ts lines 32-48): a failed
scoreAnswer only logs a warning and skips the question; a success appends
the scored answer and accumulates both totals. Returns the scores in
iteration order together with totalExpectedScore, totalEntropy and the
final scorer state. -/
noncomputable def scoreAllLoop (sc : SsrScorer) (questionTypeMapping : String → Option String) :
    List (String × String) → ScoreState → List (String × ScoredAnswer) × ℝ × ℝ × ScoreState
  | [], st => ([], 0, 0, st)
  | (questionId, answer) :: rest, st =>
    let questionType := (questionTypeMapping questionId).getD questionId
    match scoreAnswer sc questionType answer st with
    | .ok (result, st1) =>
      let out := scoreAllLoop sc questionTypeMapping rest st1
      ((questionId, ⟨result, answer⟩) :: out.1,
        result.expectedScore + out.2.1, result.entropy + out.2.2.1, out.2.2.2)
    | .error _ => scoreAllLoop sc questionTypeMapping rest st

/-- Embedding of scoreAllAnswers (score-answers.ts lines 19-60). -/
noncomputable def scoreAllAnswers (embedFn : String → List ℝ)
    (freeTextAnswers : List (String × String))
    (questionTypeMapping : String → Option String) : SsrScoresResult :=
  let sc := defaultScorer embedFn
  let out := scoreAllLoop sc questionTypeMapping freeTextAnswers initialScoreState
  let scoredCount := out.1.length
  { scores := out.1,
    summary :=
      { averageExpectedScore := if scoredCount > 0 then out.2.1 / scoredCount else 0,
        averageEntropy := if scoredCount > 0 then out.2.2.1 / scoredCount else 0,
        questionCount := scoredCount } }

/-- Embedding of VoyageProvider.embed (voyage-provider.ts lines 35-62)
over the text-keyed cache, with the network fetch modelled as the
deterministic function fetchFn (fetchEmbeddings returns the vectors
order-matched to its input, lines 87-88, so a batch fetch of the
uncached texts assigns fetchFn t to each uncached text t; the index
bookkeeping of the source is expressed by looking each text up again). -/
def voyageEmbed (fetchFn : String → List ℝ) (cache : List (String × List ℝ))
    (texts : List String) : List (List ℝ) × List (String × List ℝ) :=
  let uncachedTexts := texts.filter (fun t => (cache.lookup t).isNone)
  let newCache := (uncachedTexts.map (fun t => (t, fetchFn t))).foldl (fun c e => e :: c) cache
  let results := texts.map (fun t =>
    match cache.lookup t with
    | some v => v
    | none => fetchFn t)
  (results, newCache)

/-- The provider cache invariant: every cached vector is the embedding of
exactly the text it is keyed by. -/
def CacheFaithful (fetchFn : String → List ℝ) (cache : List (String × List ℝ)) : Prop :=
  ∀ t v, cache.lookup t = some v → v = fetchFn t

section DigitLemmas

lemma toDigitsCore_unfold (b fuel n : ℕ) (ds : List Char) :
    Nat.toDigitsCore b (fuel + 1) n ds =
      if n / b = 0 then Nat.digitChar (n % b) :: ds
      else Nat.toDigitsCore b fuel (n / b) (Nat.digitChar (n % b) :: ds) := by
  simp [Nat.toDigitsCore]

lemma toDigitsCore_shift (n : ℕ) : ∀ (fuel : ℕ), n < fuel → ∀ acc : List Char,
    Nat.toDigitsCore 10 fuel n acc = Nat.toDigitsCore 10 (n + 1) n [] ++ acc := by
  induction n using Nat.strong_induction_on with
  | _ n ih =>
    intro fuel hfuel acc
    obtain ⟨f, rfl⟩ : ∃ f, fuel = f + 1 := ⟨fuel - 1, by omega⟩
    rw [toDigitsCore_unfold, toDigitsCore_unfold]
    by_cases hq : n / 10 = 0
    · rw [if_pos hq, if_pos hq]
      simp
    · rw [if_neg hq, if_neg hq]
      have hn1 : 1 ≤ n := by
        by_contra hcon
        have : n = 0 := by omega
        rw [this] at hq
        simp at hq
      have hqlt : n / 10 < n := Nat.div_lt_self hn1 (by norm_num)
      rw [ih (n / 10) hqlt f (by omega) (Nat.digitChar (n % 10) :: acc),
        ih (n / 10) hqlt n (by omega) [Nat.digitChar (n % 10)]]
      simp

lemma toDigits_small (n : ℕ) (h : n < 10) :
    Nat.toDigits 10 n = [Nat.digitChar n] := by
  unfold Nat.toDigits
  rw [toDigitsCore_unfold, if_pos (Nat.div_eq_of_lt h), Nat.mod_eq_of_lt h]

lemma toDigits_recurrence (n : ℕ) (h : 10 ≤ n) :
    Nat.toDigits 10 n = Nat.toDigits 10 (n / 10) ++ [Nat.digitChar (n % 10)] := by
  unfold Nat.toDigits
  rw [toDigitsCore_unfold]
  have hq : n / 10 ≠ 0 := by
    intro hcon
    have := Nat.div_eq_of_lt (show n < 10 by omega)
    omega
  rw [if_neg hq]
  exact toDigitsCore_shift (n / 10) n (by
    have := Nat.div_lt_self (show 1 ≤ n by omega) (show 1 < 10 by norm_num)
    omega) [Nat.digitChar (n % 10)]

lemma toDigits_ne_nil (n : ℕ) : Nat.toDigits 10 n ≠ [] := by
  rcases lt_or_ge n 10 with h | h
  · rw [toDigits_small n h]
    simp
  · rw [toDigits_recurrence n h]
    simp

lemma digitChar_isDigit (d : ℕ) (h : d < 10) : (Nat.digitChar d).isDigit = true := by
  interval_cases d <;> decide

lemma digitChar_inj (a b : ℕ) (ha : a < 10) (hb : b < 10)
    (h : Nat.digitChar a = Nat.digitChar b) : a = b := by
  interval_cases a <;> interval_cases b <;> first | rfl | (exact absurd h (by decide))

lemma toDigits_all_digits (n : ℕ) : ∀ c ∈ Nat.toDigits 10 n, c.isDigit = true := by
  induction n using Nat.strong_induction_on with
  | _ n ih =>
    rcases lt_or_ge n 10 with h | h
    · rw [toDigits_small n h]
      intro c hc
      rcases List.mem_singleton.mp hc with rfl
      exact digitChar_isDigit n h
    · rw [toDigits_recurrence n h]
      intro c hc
      rcases List.mem_append.mp hc with hc1 | hc2
      · exact ih (n / 10) (Nat.div_lt_self (by omega) (by norm_num)) c hc1
      · rcases List.mem_singleton.mp hc2 with rfl
        exact digitChar_isDigit _ (Nat.mod_lt n (by norm_num))

lemma toDigits_inj (m : ℕ) : ∀ n, Nat.toDigits 10 m = Nat.toDigits 10 n → m = n := by
  induction m using Nat.strong_induction_on with
  | _ m ih =>
    intro n h
    rcases lt_or_ge m 10 with hm | hm <;> rcases lt_or_ge n 10 with hn | hn
    · rw [toDigits_small m hm, toDigits_small n hn] at h
      exact digitChar_inj m n hm hn (List.singleton_injective h)
    · rw [toDigits_small m hm, toDigits_recurrence n hn] at h
      have := congrArg List.length h
      simp at this
      exact absurd this (toDigits_ne_nil (n / 10))
    · rw [toDigits_recurrence m hm, toDigits_small n hn] at h
      have := congrArg List.length h
      simp at this
      exact absurd this (toDigits_ne_nil (m / 10))
    · rw [toDigits_recurrence m hm, toDigits_recurrence n hn] at h
      rcases List.append_inj' h rfl with ⟨h1, h2⟩
      have hdiv : m / 10 = n / 10 :=
        ih (m / 10) (Nat.div_lt_self (by omega) (by norm_num)) (n / 10) h1
      have hmod : m % 10 = n % 10 :=
        digitChar_inj _ _ (Nat.mod_lt m (by norm_num)) (Nat.mod_lt n (by norm_num))
          (List.singleton_injective h2)
      omega

lemma append_sep_inj (c : Char) (l1 : List Char) : ∀ (l2 r1 r2 : List Char),
    c ∉ r1 → c ∉ r2 → l1 ++ c :: r1 = l2 ++ c :: r2 → l1 = l2 ∧ r1 = r2 := by
  induction l1 with
  | nil =>
    intro l2 r1 r2 h1 h2 h
    cases l2 with
    | nil =>
      simp at h
      exact ⟨rfl, h⟩
    | cons y l2 =>
      simp at h
      exfalso
      apply h1
      rw [h.2]
      simp
  | cons x l1 ih =>
    intro l2 r1 r2 h1 h2 h
    cases l2 with
    | nil =>
      simp at h
      exfalso
      apply h2
      rw [← h.2]
      simp
    | cons y l2 =>
      simp at h
      obtain ⟨he1, he2⟩ := ih l2 r1 r2 h1 h2 h.2
      exact ⟨by rw [h.1, he1], he2⟩

lemma cacheKey_inj (qt1 : String) (i1 : ℕ) (qt2 : String) (i2 : ℕ)
    (h : cacheKey qt1 i1 = cacheKey qt2 i2) : qt1 = qt2 ∧ i1 = i2 := by
  have hd := congrArg String.data h
  have hexp : ∀ (qt : String) (i : ℕ), (cacheKey qt i).data =
      qt.data ++ ':' :: Nat.toDigits 10 i := by
    intro qt i
    show (qt ++ ":" ++ toString i).data = _
    rw [String.data_append, String.data_append]
    show qt.data ++ [':'] ++ Nat.toDigits 10 i = _
    simp
  rw [hexp, hexp] at hd
  have hnc : ∀ i : ℕ, ':' ∉ Nat.toDigits 10 i := by
    intro i hmem
    have := toDigits_all_digits i ':' hmem
    simp at this
  rcases append_sep_inj ':' qt1.data qt2.data _ _ (hnc i1) (hnc i2) hd with ⟨hq, hdig⟩
  refine ⟨?_, toDigits_inj i1 i2 hdig⟩
  cases qt1
  cases qt2
  exact congrArg String.mk hq

end DigitLemmas

section ProviderCache

lemma cacheFaithful_insert (fetchFn : String → List ℝ) (cache : List (String × List ℝ))
    (t : String) (hf : CacheFaithful fetchFn cache) :
    CacheFaithful fetchFn ((t, fetchFn t) :: cache) := by
  intro t' v hlook
  by_cases ht : t' = t
  · subst ht
    rw [List.lookup_cons] at hlook
    simp at hlook
    exact hlook.symm
  · have hbeq : (t' == t) = false := beq_eq_false_iff_ne.mpr ht
    rw [List.lookup_cons] at hlook
    simp [hbeq] at hlook
    exact hf t' v hlook

lemma cacheFaithful_foldl (fetchFn : String → List ℝ) (l : List String) :
    ∀ cache : List (String × List ℝ), CacheFaithful fetchFn cache →
    CacheFaithful fetchFn ((l.map (fun t => (t, fetchFn t))).foldl (fun c e => e :: c) cache) := by
  induction l with
  | nil => intro cache hf; exact hf
  | cons t rest ih =>
    intro cache hf
    exact ih ((t, fetchFn t) :: cache) (cacheFaithful_insert fetchFn cache t hf)

end ProviderCache

/-- C9: the two embedding caches never collide. Distinct (questionType,
anchorSetIndex) pairs always produce distinct scorer cache keys, because
the decimal index after the final colon pins down the pair; and the
provider-level cache keyed by raw text, when every stored vector is the
embedding of its own key, answers every request with the embedding of
exactly the requested text and preserves that property across calls. -/
theorem cache_no_collision :
    (∀ qt1 i1 qt2 i2, (qt1, i1) ≠ (qt2, i2) → cacheKey qt1 i1 ≠ cacheKey qt2 i2) ∧
    (∀ fetchFn cache texts, CacheFaithful fetchFn cache →
      (voyageEmbed fetchFn cache texts).1 = texts.map fetchFn ∧
      CacheFaithful fetchFn (voyageEmbed fetchFn cache texts).2) := by
  constructor
  · intro qt1 i1 qt2 i2 hne hcon
    rcases cacheKey_inj qt1 i1 qt2 i2 hcon with ⟨rfl, rfl⟩
    exact hne rfl
  · intro fetchFn cache texts hf
    constructor
    · simp only [voyageEmbed]
      apply List.map_congr_left
      intro t _
      cases hl : cache.lookup t with
      | none => rfl
      | some v => exact hf t v hl
    · simp only [voyageEmbed]
      exact cacheFaithful_foldl fetchFn _ cache hf
section ErrorPaths

lemma cosineSimilarity_error (a b : List ℝ) (e : SsrError)
    (h : cosineSimilarity a b = .error e) : e = .dimensionMismatch := by
  simp only [cosineSimilarity] at h
  by_cases hlen : a.length ≠ b.length
  · rw [if_pos hlen] at h
    exact (Except.error.inj h).symm
  · rw [if_neg hlen] at h
    split at h <;> exact absurd h (by simp)

lemma computeSimilarities_error (aemb : List ℝ) (l : List (List ℝ)) :
    ∀ e : SsrError, computeSimilarities aemb l = .error e → e = .dimensionMismatch := by
  induction l with
  | nil =>
    intro e h
    simp [computeSimilarities] at h
  | cons anchor rest ih =>
    intro e h
    simp only [computeSimilarities] at h
    split at h
    · rename_i e1 heq
      cases h
      exact cosineSimilarity_error aemb anchor _ heq
    · rename_i sim heq
      split at h
      · rename_i e2 heq2
        cases h
        exact ih _ heq2
      · exact absurd h (by simp)

lemma getAnchorEmbeddings_error (sc : SsrScorer) (qt : String) (i : ℕ) (st : ScoreState)
    (e : SsrError) (h : getAnchorEmbeddings sc qt i st = .error e) :
    e = .noAnchorSet qt i := by
  simp only [getAnchorEmbeddings] at h
  split at h
  · exact absurd h (by simp)
  · split at h
    · cases h
      rfl
    · exact absurd h (by simp)

lemma runSets_error_not_unknown (sc : SsrScorer) (qt : String) (aemb : List ℝ)
    (idxs : List ℕ) : ∀ (st : ScoreState) (e : SsrError),
    runSets sc qt aemb idxs st = .error e → ∀ q, e ≠ .unknownQuestionType q := by
  induction idxs with
  | nil =>
    intro st e h
    simp [runSets] at h
  | cons i rest ih =>
    intro st e h q
    simp only [runSets] at h
    split at h
    · rename_i e1 heq
      cases h
      rw [getAnchorEmbeddings_error sc qt i st _ heq]
      simp
    · rename_i anchorEmbeddings st1 heq
      split at h
      · rename_i e2 heq2
        cases h
        rw [computeSimilarities_error aemb anchorEmbeddings _ heq2]
        simp
      · rename_i sims heq2
        split at h
        · rename_i e3 heq3
          cases h
          exact ih st1 _ heq3 q
        · exact absurd h (by simp)

end ErrorPaths

/-- C4: scoreAnswer fails with the UnknownQuestionType error exactly when
the anchor catalog has no entry for the question type or the entry is an
empty list of anchor sets; with a non-empty entry that error is never
raised (any later failure carries a different error). -/
theorem scoreAnswer_unknownQuestionType_iff (sc : SsrScorer) (qt ans : String) (st : ScoreState) :
    (∃ q, scoreAnswer sc qt ans st = .error (.unknownQuestionType q)) ↔
      (sc.anchorSets qt = none ∨ sc.anchorSets qt = some []) := by
  constructor
  · rintro ⟨q, h⟩
    cases hcat : sc.anchorSets qt with
    | none => exact Or.inl rfl
    | some sets =>
      by_cases hlen : sets.length = 0
      · refine Or.inr ?_
        rw [List.length_eq_zero.mp hlen]
      · exfalso
        simp only [scoreAnswer, hcat] at h
        rw [if_neg hlen] at h
        split at h
        · rename_i e1 heq
          cases h
          exact runSets_error_not_unknown sc qt (sc.embedFn ans) (List.range sets.length)
            _ _ heq q rfl
        · exact absurd h (by simp)
  · rintro (hnone | hempty)
    · refine ⟨qt, ?_⟩
      simp only [scoreAnswer]
      rw [hnone]
    · refine ⟨qt, ?_⟩
      simp only [scoreAnswer]
      rw [hempty]
      simp

section CacheConsistency

/-- A provider whose embeddings all have one dimensionality, as the
embedding contract requires. -/
def UniformDim (sc : SsrScorer) : Prop :=
  ∀ s1 s2 : String, (sc.embedFn s1).length = (sc.embedFn s2).length

/-- The scorer cache invariant: every cached matrix under a key built
from (questionType, anchorSetIndex) is the embedding of exactly that
anchor set's five statements, for the scorer's own catalog and provider. -/
def CacheConsistent (sc : SsrScorer) (cache : List (String × List (List ℝ))) : Prop :=
  ∀ qt i v, cache.lookup (cacheKey qt i) = some v →
    ∃ aset, catalogSet sc qt i = some aset ∧ v = (anchorStatements aset).map sc.embedFn

lemma cacheConsistent_initial (sc : SsrScorer) :
    CacheConsistent sc initialScoreState.cache := by
  intro qt i v h
  simp [initialScoreState, List.lookup] at h

/-- A placeholder anchor set used only as the default of getD at indices
that are always in range. -/
def emptyAnchorSet : AnchorSet := ⟨"", "", "", "", ""⟩

/-- The per-anchor-set distribution of the specification: the pmf of the
five cosine similarities between the answer embedding and the anchor
statement embeddings, in level order. -/
noncomputable def perSetDistribution (sc : SsrScorer) (ans : String) (aset : AnchorSet) : List ℝ :=
  similarityToPmf ((anchorStatements aset).map
    (fun stmt => cosineSimilarityVal (sc.embedFn ans) (sc.embedFn stmt))) sc.epsilon sc.temperature

lemma lookup_cons_self {β : Type} (k : String) (v : β) (c : List (String × β)) :
    ((k, v) :: c).lookup k = some v := by
  rw [List.lookup_cons]
  simp

lemma lookup_cons_ne {β : Type} (k k2 : String) (v : β) (c : List (String × β))
    (h : k2 ≠ k) : ((k, v) :: c).lookup k2 = c.lookup k2 := by
  rw [List.lookup_cons]
  simp [beq_eq_false_iff_ne.mpr h]

lemma cosineSimilarity_eq_val (a b : List ℝ) (hlen : a.length = b.length) :
    cosineSimilarity a b = .ok (cosineSimilarityVal a b) := by
  simp only [cosineSimilarity, cosineSimilarityVal]
  rw [if_neg (not_not.mpr hlen)]
  split <;> rfl

lemma computeSimilarities_ok (aemb : List ℝ) (l : List (List ℝ))
    (hdim : ∀ v ∈ l, aemb.length = v.length) :
    computeSimilarities aemb l = .ok (l.map (fun v => cosineSimilarityVal aemb v)) := by
  induction l with
  | nil => rfl
  | cons anchor rest ih =>
    simp only [computeSimilarities]
    rw [cosineSimilarity_eq_val aemb anchor (hdim anchor (by simp))]
    rw [ih (fun v hv => hdim v (by simp [hv]))]
    rfl

lemma getAnchorEmbeddings_none (sc : SsrScorer) (qt : String) (i : ℕ) (st : ScoreState)
    (hcons : CacheConsistent sc st.cache) (hnone : catalogSet sc qt i = none) :
    getAnchorEmbeddings sc qt i st = .error (.noAnchorSet qt i) := by
  cases hl : st.cache.lookup (cacheKey qt i) with
  | some v =>
    rcases hcons qt i v hl with ⟨aset, hset, _⟩
    rw [hnone] at hset
    cases hset
  | none =>
    simp only [getAnchorEmbeddings, hl, hnone]

/-- What getAnchorEmbeddings does under a consistent cache when the
catalog has the requested set: it returns that set's embeddings, keeps
the cache consistent, logs one batched call exactly when the key was
uncached, changes no other key, and leaves the key cached. -/
lemma getAnchorEmbeddings_spec (sc : SsrScorer) (qt : String) (i : ℕ) (st : ScoreState)
    (aset : AnchorSet) (hset : catalogSet sc qt i = some aset)
    (hcons : CacheConsistent sc st.cache) :
    ∃ st2 : ScoreState,
      getAnchorEmbeddings sc qt i st = .ok ((anchorStatements aset).map sc.embedFn, st2) ∧
      CacheConsistent sc st2.cache ∧
      st2.calls = st.calls ++ (if (st.cache.lookup (cacheKey qt i)).isSome then []
        else [anchorStatements aset]) ∧
      (∀ key, st2.cache.lookup key = st.cache.lookup key ∨ key = cacheKey qt i) ∧
      (st2.cache.lookup (cacheKey qt i)).isSome := by
  cases hl : st.cache.lookup (cacheKey qt i) with
  | some v =>
    rcases hcons qt i v hl with ⟨aset2, hset2, hv⟩
    obtain rfl : aset2 = aset := Option.some.inj (hset2.symm.trans hset)
    refine ⟨st, ?_, hcons, ?_, fun key => Or.inl rfl, ?_⟩
    · simp only [getAnchorEmbeddings, hl, hv]
    · simp [hl]
    · simp [hl]
  | none =>
    refine ⟨{ cache := (cacheKey qt i, (anchorStatements aset).map sc.embedFn) :: st.cache,
              calls := st.calls ++ [anchorStatements aset] }, ?_, ?_, ?_, ?_, ?_⟩
    · simp only [getAnchorEmbeddings, hl, hset]
    · intro qt2 i2 v2 hlook
      by_cases hkey : cacheKey qt2 i2 = cacheKey qt i
      · rcases cacheKey_inj qt2 i2 qt i hkey with ⟨rfl, rfl⟩
        rw [hkey, lookup_cons_self] at hlook
        exact ⟨aset, hset, (Option.some.inj hlook).symm⟩
      · rw [lookup_cons_ne _ _ _ _ hkey] at hlook
        exact hcons qt2 i2 v2 hlook
    · simp [hl]
    · intro key
      by_cases hkey : key = cacheKey qt i
      · exact Or.inr hkey
      · exact Or.inl (lookup_cons_ne _ _ _ _ hkey)
    · rw [lookup_cons_self]
      rfl

lemma getAnchorEmbeddings_preserves (sc : SsrScorer) (qt : String) (i : ℕ)
    (st : ScoreState) (res : List (List ℝ)) (st1 : ScoreState)
    (hcons : CacheConsistent sc st.cache)
    (h : getAnchorEmbeddings sc qt i st = .ok (res, st1)) :
    CacheConsistent sc st1.cache := by
  cases hcat : catalogSet sc qt i with
  | none =>
    rw [getAnchorEmbeddings_none sc qt i st hcons hcat] at h
    exact absurd h (by simp)
  | some aset =>
    obtain ⟨st2, hge, hc2, _, _, _⟩ := getAnchorEmbeddings_spec sc qt i st aset hcat hcons
    rw [hge] at h
    cases h
    exact hc2

end CacheConsistency

section RunSetsSpec

lemma range_map_getD {α β : Type} (l : List α) (d : α) (f : α → β) :
    (List.range l.length).map (fun i => f (l.getD i d)) = l.map f := by
  induction l with
  | nil => simp
  | cons a t ih =>
    rw [List.length_cons, List.range_succ_eq_map]
    simp only [List.map_cons, List.map_map, List.getD_cons_zero]
    have h1 : ((fun i => f ((a :: t).getD i d)) ∘ Nat.succ) = (fun i => f (t.getD i d)) := by
      funext i
      simp
    rw [h1, ih]

/-- What the anchor-set loop does under a consistent cache and a
dimension-uniform provider, over any duplicate-free list of in-range
indices: it succeeds with exactly the per-anchor-set distributions of the
specification, keeps the cache consistent, appends one batched call per
initially-uncached index, touches no other cache key, and leaves every
processed key cached. -/
lemma runSets_spec (sc : SsrScorer) (qt ans : String) (sets : List AnchorSet)
    (hsets : sc.anchorSets qt = some sets) (hdim : UniformDim sc) :
    ∀ (idxs : List ℕ), (∀ i ∈ idxs, i < sets.length) → idxs.Nodup →
    ∀ (st : ScoreState), CacheConsistent sc st.cache →
    ∃ st2 : ScoreState,
      runSets sc qt (sc.embedFn ans) idxs st =
        .ok (idxs.map (fun i => perSetDistribution sc ans (sets.getD i emptyAnchorSet)), st2) ∧
      CacheConsistent sc st2.cache ∧
      st2.calls = st.calls ++ idxs.filterMap (fun i =>
        if (st.cache.lookup (cacheKey qt i)).isSome then none
        else some (anchorStatements (sets.getD i emptyAnchorSet))) ∧
      (∀ key, st2.cache.lookup key = st.cache.lookup key ∨ ∃ i ∈ idxs, key = cacheKey qt i) ∧
      (∀ i ∈ idxs, (st2.cache.lookup (cacheKey qt i)).isSome) := by
  intro idxs
  induction idxs with
  | nil =>
    intro _ _ st hcons
    refine ⟨st, ?_, hcons, by simp, fun key => Or.inl rfl, by simp⟩
    simp [runSets]
  | cons i rest ih =>
    intro hrange hnodup st hcons
    have hi : i < sets.length := hrange i (by simp)
    have hset : catalogSet sc qt i = some (sets.getD i emptyAnchorSet) := by
      simp only [catalogSet, hsets, Option.bind_some]
      rw [List.getD_eq_getElem sets emptyAnchorSet hi]
      exact List.getElem?_eq_getElem hi
    obtain ⟨st1, hge, hc1, hcalls1, hpres1, hsome1⟩ :=
      getAnchorEmbeddings_spec sc qt i st (sets.getD i emptyAnchorSet) hset hcons
    have hdim1 : ∀ v ∈ (anchorStatements (sets.getD i emptyAnchorSet)).map sc.embedFn,
        (sc.embedFn ans).length = v.length := by
      intro v hv
      rcases List.mem_map.mp hv with ⟨stmt, _, rfl⟩
      exact hdim ans stmt
    have hcs := computeSimilarities_ok (sc.embedFn ans) _ hdim1
    have hnotmem : i ∉ rest := (List.nodup_cons.mp hnodup).1
    obtain ⟨st2, hrun, hc2, hcalls2, hpres2, hsome2⟩ :=
      ih (fun j hj => hrange j (by simp [hj])) (List.nodup_cons.mp hnodup).2 st1 hc1
    refine ⟨st2, ?_, hc2, ?_, ?_, ?_⟩
    · simp only [runSets, hge, hcs, hrun]
      congr 2
    · rw [hcalls2, hcalls1]
      have hrestmaps : rest.filterMap (fun j =>
          if (st1.cache.lookup (cacheKey qt j)).isSome then none
          else some (anchorStatements (sets.getD j emptyAnchorSet))) =
        rest.filterMap (fun j =>
          if (st.cache.lookup (cacheKey qt j)).isSome then none
          else some (anchorStatements (sets.getD j emptyAnchorSet))) := by
        apply List.filterMap_congr
        intro j hj
        rcases hpres1 (cacheKey qt j) with hsame | hkey
        · rw [hsame]
        · exfalso
          rcases cacheKey_inj qt j qt i hkey with ⟨_, rfl⟩
          exact hnotmem hj
      rw [hrestmaps]
      cases hl : (st.cache.lookup (cacheKey qt i)).isSome with
      | true => simp [List.filterMap_cons, hl]
      | false => simp [List.filterMap_cons, hl]
    · intro key
      rcases hpres2 key with hsame2 | ⟨j, hj, hkey⟩
      · rcases hpres1 key with hsame1 | hkey
        · exact Or.inl (hsame2.trans hsame1)
        · exact Or.inr ⟨i, by simp, hkey⟩
      · exact Or.inr ⟨j, by simp [hj], hkey⟩
    · intro j hj
      rcases List.mem_cons.mp hj with rfl | hjr
      · rcases hpres2 (cacheKey qt j) with hsame2 | ⟨k, hk, hkey⟩
        · rw [hsame2]
          exact hsome1
        · obtain ⟨_, hjk⟩ := cacheKey_inj qt j qt k hkey
          rw [hjk]
          exact hsome2 k hk
      · exact hsome2 j hjr

end RunSetsSpec

section ScoreAnswerSpec

/-- What scoreAnswer does under a consistent cache and a dimension-uniform
provider for a question type with a non-empty catalog entry: it succeeds
with the averaged per-anchor-set distributions, the embedded expected
score and entropy and the anchor-set count; the provider receives one
call for the answer text plus one batched call per uncached anchor set;
and every anchor set of the question type is cached afterwards. -/
lemma scoreAnswer_spec (sc : SsrScorer) (qt ans : String) (sets : List AnchorSet)
    (hsets : sc.anchorSets qt = some sets) (hne : sets ≠ []) (hdim : UniformDim sc)
    (st : ScoreState) (hcons : CacheConsistent sc st.cache) :
    ∃ st2 : ScoreState,
      scoreAnswer sc qt ans st = .ok
        ({ distribution := avgDistribution (sets.map (perSetDistribution sc ans)),
           expectedScore := expectedScoreOf (avgDistribution (sets.map (perSetDistribution sc ans))),
           entropy := entropyOf (avgDistribution (sets.map (perSetDistribution sc ans))),
           anchorSetCount := sets.length }, st2) ∧
      CacheConsistent sc st2.cache ∧
      st2.calls = st.calls ++ [[ans]] ++ (List.range sets.length).filterMap (fun i =>
        if (st.cache.lookup (cacheKey qt i)).isSome then none
        else some (anchorStatements (sets.getD i emptyAnchorSet))) ∧
      (∀ i, i < sets.length → (st2.cache.lookup (cacheKey qt i)).isSome) := by
  have hlen0 : sets.length ≠ 0 := fun hcon => hne (List.length_eq_zero.mp hcon)
  have hrange : ∀ i ∈ List.range sets.length, i < sets.length := by
    intro i hi
    exact List.mem_range.mp hi
  obtain ⟨st2, hrun, hc2, hcalls2, _, hsome2⟩ :=
    runSets_spec sc qt ans sets hsets hdim (List.range sets.length) hrange
      (List.nodup_range sets.length)
      { st with calls := st.calls ++ [[ans]] }
      (by exact hcons)
  refine ⟨st2, ?_, hc2, ?_, ?_⟩
  · simp only [scoreAnswer, hsets]
    rw [if_neg hlen0]
    rw [hrun]
    rw [range_map_getD sets emptyAnchorSet (perSetDistribution sc ans)]
  · rw [hcalls2]
  · intro i hi
    exact hsome2 i (List.mem_range.mpr hi)

end ScoreAnswerSpec

section FiveElementHelpers

lemma filterMap_some_eq_map {α β : Type} (l : List α) (f : α → β) :
    l.filterMap (fun x => some (f x)) = l.map f := by
  induction l with
  | nil => rfl
  | cons a t ih => simp [List.filterMap_cons, ih]

lemma list_length_five {α : Type} (l : List α) (h : l.length = 5) :
    ∃ a1 a2 a3 a4 a5, l = [a1, a2, a3, a4, a5] := by
  cases l with
  | nil => simp at h
  | cons a1 l =>
    cases l with
    | nil => simp at h
    | cons a2 l =>
      cases l with
      | nil => simp at h
      | cons a3 l =>
        cases l with
        | nil => simp at h
        | cons a4 l =>
          cases l with
          | nil => simp at h
          | cons a5 l =>
            cases l with
            | nil => exact ⟨a1, a2, a3, a4, a5, rfl⟩
            | cons a6 l => simp at h

lemma avgDistribution_eq_inv_smul (dists : List (List ℝ)) :
    avgDistribution dists = (List.range 5).map (fun i =>
      (1 / (dists.length : ℝ)) * (dists.map (fun d => d.getD i 0)).sum) := by
  simp only [avgDistribution]
  apply List.map_congr_left
  intro i _
  rw [sum_map_div]
  ring

lemma avgDistribution_explicit (dists : List (List ℝ)) :
    avgDistribution dists =
      [(dists.map (fun d => d.getD 0 0 / (dists.length : ℝ))).sum,
       (dists.map (fun d => d.getD 1 0 / (dists.length : ℝ))).sum,
       (dists.map (fun d => d.getD 2 0 / (dists.length : ℝ))).sum,
       (dists.map (fun d => d.getD 3 0 / (dists.length : ℝ))).sum,
       (dists.map (fun d => d.getD 4 0 / (dists.length : ℝ))).sum] := by
  simp only [avgDistribution]
  rfl

lemma avg_entry_pos (dists : List (List ℝ)) (hne : dists ≠ [])
    (h5 : ∀ d ∈ dists, d.length = 5) (hpos : ∀ d ∈ dists, ∀ p ∈ d, 0 < p)
    (i : ℕ) (hi : i < 5) :
    0 < (dists.map (fun d => d.getD i 0 / (dists.length : ℝ))).sum := by
  apply List.sum_pos
  · intro x hx
    rcases List.mem_map.mp hx with ⟨d, hd, rfl⟩
    apply div_pos
    · have hlen := h5 d hd
      have hmem : d.getD i 0 ∈ d := by
        rw [List.getD_eq_getElem d 0 (by rw [hlen]; exact hi)]
        exact List.getElem_mem _
      exact hpos d hd _ hmem
    · exact_mod_cast List.length_pos.mpr hne
  · simpa using hne

lemma avg_sum_aux (n : ℝ) (dists : List (List ℝ))
    (h5 : ∀ d ∈ dists, d.length = 5) (hsum : ∀ d ∈ dists, d.sum = 1) :
    ((List.range 5).map (fun i => (dists.map (fun d => d.getD i 0 / n)).sum)).sum
      = (dists.length : ℝ) / n := by
  induction dists with
  | nil => simp
  | cons d rest ih =>
    obtain ⟨a1, a2, a3, a4, a5, rfl⟩ := list_length_five d (h5 d (by simp))
    have hrest5 : ∀ x ∈ rest, x.length = 5 := fun x hx => h5 x (by simp [hx])
    have hrestsum : ∀ x ∈ rest, x.sum = 1 := fun x hx => hsum x (by simp [hx])
    have hdsum : a1 + a2 + a3 + a4 + a5 = 1 := by
      have h0 := hsum [a1, a2, a3, a4, a5] (by simp)
      simp at h0
      linarith
    simp only [List.map_cons, List.sum_cons]
    rw [List.sum_map_add]
    rw [ih hrest5 hrestsum]
    have hfirst : ((List.range 5).map
        (fun j => [a1, a2, a3, a4, a5].getD j 0 / n)).sum = 1 / n := by
      rw [show List.range 5 = [0, 1, 2, 3, 4] from rfl]
      simp only [List.map_cons, List.map_nil, List.sum_cons, List.sum_nil,
        List.getD_cons_zero, List.getD_cons_succ]
      rw [← hdsum]
      ring
    rw [hfirst]
    rw [List.length_cons]
    push_cast
    ring

lemma expectedScoreOf_five (a1 a2 a3 a4 a5 : ℝ) :
    expectedScoreOf [a1, a2, a3, a4, a5] =
      a1 * 1 + a2 * 2 + a3 * 3 + a4 * 4 + a5 * 5 := by
  simp only [expectedScoreOf, List.enum]
  norm_num [List.enumFrom, List.foldl]

lemma claim_expected_eq (a1 a2 a3 a4 a5 : ℝ) :
    expectedScoreOf [a1, a2, a3, a4, a5] =
      ((List.range 5).map (fun (i : ℕ) =>
        ((i : ℝ) + 1) * ([a1, a2, a3, a4, a5].getD i 0))).sum := by
  rw [expectedScoreOf_five]
  rw [show List.range 5 = [0, 1, 2, 3, 4] from rfl]
  simp only [List.map_cons, List.map_nil, List.sum_cons, List.sum_nil,
    List.getD_cons_zero, List.getD_cons_succ]
  norm_num
  ring

lemma entropyOf_five (a1 a2 a3 a4 a5 : ℝ) (h1 : 0 < a1) (h2 : 0 < a2) (h3 : 0 < a3)
    (h4 : 0 < a4) (h5 : 0 < a5) :
    entropyOf [a1, a2, a3, a4, a5] =
      -(a1 * Real.logb 2 a1 + a2 * Real.logb 2 a2 + a3 * Real.logb 2 a3 +
        a4 * Real.logb 2 a4 + a5 * Real.logb 2 a5) := by
  simp only [entropyOf, List.foldl_cons, List.foldl_nil]
  rw [if_pos h1, if_pos h2, if_pos h3, if_pos h4, if_pos h5]
  ring

lemma claim_entropy_eq (a1 a2 a3 a4 a5 : ℝ) (h1 : 0 < a1) (h2 : 0 < a2) (h3 : 0 < a3)
    (h4 : 0 < a4) (h5 : 0 < a5) :
    entropyOf [a1, a2, a3, a4, a5] =
      -(([a1, a2, a3, a4, a5].map (fun p =>
        if p = 0 then 0 else p * Real.logb 2 p)).sum) := by
  rw [entropyOf_five a1 a2 a3 a4 a5 h1 h2 h3 h4 h5]
  simp only [List.map_cons, List.map_nil, List.sum_cons, List.sum_nil,
    if_neg (ne_of_gt h1), if_neg (ne_of_gt h2), if_neg (ne_of_gt h3),
    if_neg (ne_of_gt h4), if_neg (ne_of_gt h5)]
  ring

lemma neg_mul_log_le (p : ℝ) (hp : 0 < p) :
    -(p * Real.log p) ≤ 1 / 5 - p + p * Real.log 5 := by
  have h5p : (0:ℝ) < 1 / (5 * p) := by positivity
  have hlog := Real.log_le_sub_one_of_pos h5p
  have hexp : Real.log (1 / (5 * p)) = -(Real.log 5 + Real.log p) := by
    rw [one_div, Real.log_inv, Real.log_mul (by norm_num) (ne_of_gt hp)]
  rw [hexp] at hlog
  have hmul := mul_le_mul_of_nonneg_left hlog hp.le
  have hps : p * (1 / (5 * p)) = 1 / 5 := by
    field_simp
    ring
  have h2 : p * (1 / (5 * p) - 1) = 1 / 5 - p := by
    rw [mul_sub, hps]
    ring
  rw [h2] at hmul
  nlinarith [hmul]

lemma entropy_bound_five (a1 a2 a3 a4 a5 : ℝ) (h1 : 0 < a1) (h2 : 0 < a2) (h3 : 0 < a3)
    (h4 : 0 < a4) (h5 : 0 < a5) (hsum : a1 + a2 + a3 + a4 + a5 = 1) :
    0 ≤ entropyOf [a1, a2, a3, a4, a5] ∧
    entropyOf [a1, a2, a3, a4, a5] ≤ Real.logb 2 5 := by
  rw [entropyOf_five a1 a2 a3 a4 a5 h1 h2 h3 h4 h5]
  have hlog2 : 0 < Real.log 2 := Real.log_pos (by norm_num)
  have hterm : ∀ p : ℝ, 0 < p → p ≤ 1 → p * Real.logb 2 p ≤ 0 := by
    intro p hp hp1
    have hlb : Real.logb 2 p ≤ 0 := Real.logb_nonpos (by norm_num) hp.le hp1
    have := mul_nonneg hp.le (neg_nonneg.mpr hlb)
    nlinarith [this]
  constructor
  · have t1 := hterm a1 h1 (by linarith)
    have t2 := hterm a2 h2 (by linarith)
    have t3 := hterm a3 h3 (by linarith)
    have t4 := hterm a4 h4 (by linarith)
    have t5 := hterm a5 h5 (by linarith)
    linarith
  · have hb1 := neg_mul_log_le a1 h1
    have hb2 := neg_mul_log_le a2 h2
    have hb3 := neg_mul_log_le a3 h3
    have hb4 := neg_mul_log_le a4 h4
    have hb5 := neg_mul_log_le a5 h5
    have hnat : -(a1 * Real.log a1 + a2 * Real.log a2 + a3 * Real.log a3 +
        a4 * Real.log a4 + a5 * Real.log a5) ≤ Real.log 5 := by
      have hl5 : (a1 + a2 + a3 + a4 + a5) * Real.log 5 = Real.log 5 := by
        rw [hsum, one_mul]
      nlinarith [hb1, hb2, hb3, hb4, hb5]
    simp only [Real.logb]
    have hrw : -(a1 * (Real.log a1 / Real.log 2) + a2 * (Real.log a2 / Real.log 2) +
        a3 * (Real.log a3 / Real.log 2) + a4 * (Real.log a4 / Real.log 2) +
        a5 * (Real.log a5 / Real.log 2)) =
      -(a1 * Real.log a1 + a2 * Real.log a2 + a3 * Real.log a3 +
        a4 * Real.log a4 + a5 * Real.log a5) / Real.log 2 := by
      ring
    rw [hrw]
    exact (div_le_div_right hlog2).mpr hnat

end FiveElementHelpers

section PerSetFacts

lemma perSetDistribution_length (sc : SsrScorer) (ans : String) (aset : AnchorSet) :
    (perSetDistribution sc ans aset).length = 5 := by
  rw [perSetDistribution, similarityToPmf_length]
  rfl

lemma perSetDistribution_sum (sc : SsrScorer) (ans : String) (aset : AnchorSet)
    (heps : 0 ≤ sc.epsilon) : (perSetDistribution sc ans aset).sum = 1 :=
  similarityToPmf_sum_one _ _ _ (by simp [anchorStatements]) heps

lemma perSetDistribution_pos (sc : SsrScorer) (ans : String) (aset : AnchorSet)
    (heps : 0 ≤ sc.epsilon) : ∀ p ∈ perSetDistribution sc ans aset, 0 < p :=
  similarityToPmf_pos _ _ _ (by simp [anchorStatements]) heps

end PerSetFacts

/-- C1: for a question type with N anchor sets, scoreAnswer returns the
element-wise average with uniform weight 1/N of the N per-anchor-set
distributions, the expected score as the sum over levels 1..5 of level
times averaged probability, the entropy as minus the sum of p times log2
of p over the averaged distribution (0 contributing for p = 0), and the
anchor-set count N. -/
theorem scoreAnswer_result_formula (sc : SsrScorer) (qt ans : String) (st : ScoreState)
    (sets : List AnchorSet) (hsets : sc.anchorSets qt = some sets) (hne : sets ≠ [])
    (hdim : UniformDim sc) (hcons : CacheConsistent sc st.cache) (heps : 0 ≤ sc.epsilon) :
    ∃ r st2, scoreAnswer sc qt ans st = .ok (r, st2) ∧
      r.anchorSetCount = sets.length ∧
      r.distribution = (List.range 5).map (fun (i : ℕ) =>
        (1 / (sets.length : ℝ)) *
          ((sets.map (perSetDistribution sc ans)).map (fun d => d.getD i 0)).sum) ∧
      r.expectedScore = ((List.range 5).map (fun (i : ℕ) =>
        ((i : ℝ) + 1) * r.distribution.getD i 0)).sum ∧
      r.entropy = -((r.distribution.map (fun p =>
        if p = 0 then 0 else p * Real.logb 2 p)).sum) := by
  obtain ⟨st2, hok, _, _, _⟩ := scoreAnswer_spec sc qt ans sets hsets hne hdim st hcons
  have hdne : sets.map (perSetDistribution sc ans) ≠ [] := by
    simp [hne]
  have h5 : ∀ d ∈ sets.map (perSetDistribution sc ans), d.length = 5 := by
    intro d hd
    rcases List.mem_map.mp hd with ⟨aset, _, rfl⟩
    exact perSetDistribution_length sc ans aset
  have hpos : ∀ d ∈ sets.map (perSetDistribution sc ans), ∀ p ∈ d, 0 < p := by
    intro d hd
    rcases List.mem_map.mp hd with ⟨aset, _, rfl⟩
    exact perSetDistribution_pos sc ans aset heps
  have hexp := avgDistribution_explicit (sets.map (perSetDistribution sc ans))
  have hp0 := avg_entry_pos _ hdne h5 hpos 0 (by norm_num)
  have hp1 := avg_entry_pos _ hdne h5 hpos 1 (by norm_num)
  have hp2 := avg_entry_pos _ hdne h5 hpos 2 (by norm_num)
  have hp3 := avg_entry_pos _ hdne h5 hpos 3 (by norm_num)
  have hp4 := avg_entry_pos _ hdne h5 hpos 4 (by norm_num)
  refine ⟨_, st2, hok, rfl, ?_, ?_, ?_⟩
  · show avgDistribution (sets.map (perSetDistribution sc ans)) = _
    rw [avgDistribution_eq_inv_smul]
    simp only [List.length_map]
  · show expectedScoreOf (avgDistribution (sets.map (perSetDistribution sc ans))) = _
    simp only [hexp]
    exact claim_expected_eq _ _ _ _ _
  · show entropyOf (avgDistribution (sets.map (perSetDistribution sc ans))) = _
    simp only [hexp]
    exact claim_entropy_eq _ _ _ _ _ hp0 hp1 hp2 hp3 hp4

theorem scoreAnswer_result_formula_witness :
    ∃ r st2, scoreAnswer (defaultScorer (fun _ => [1])) "ease" "fine" initialScoreState
        = .ok (r, st2) ∧
      r.anchorSetCount = easeAnchorSets.length ∧
      r.distribution = (List.range 5).map (fun (i : ℕ) =>
        (1 / (easeAnchorSets.length : ℝ)) *
          ((easeAnchorSets.map (perSetDistribution (defaultScorer (fun _ => [1])) "fine")).map
            (fun d => d.getD i 0)).sum) ∧
      r.expectedScore = ((List.range 5).map (fun (i : ℕ) =>
        ((i : ℝ) + 1) * r.distribution.getD i 0)).sum ∧
      r.entropy = -((r.distribution.map (fun p =>
        if p = 0 then 0 else p * Real.logb 2 p)).sum) :=
  scoreAnswer_result_formula (defaultScorer (fun _ => [1])) "ease" "fine" initialScoreState
    easeAnchorSets (by simp [defaultScorer, DEFAULT_ANCHOR_SETS]) (by simp [easeAnchorSets])
    (fun s1 s2 => rfl) (cacheConsistent_initial _)
    (by norm_num [defaultScorer, defaultEpsilon])

/-- C7: every ScoreResult of scoreAnswer has an expected score in the
closed interval from 1 to 5 and an entropy in the closed interval from 0
to log2 of 5. -/
theorem scoreAnswer_result_bounds (sc : SsrScorer) (qt ans : String) (st : ScoreState)
    (sets : List AnchorSet) (hsets : sc.anchorSets qt = some sets) (hne : sets ≠ [])
    (hdim : UniformDim sc) (hcons : CacheConsistent sc st.cache) (heps : 0 ≤ sc.epsilon) :
    ∃ r st2, scoreAnswer sc qt ans st = .ok (r, st2) ∧
      1 ≤ r.expectedScore ∧ r.expectedScore ≤ 5 ∧
      0 ≤ r.entropy ∧ r.entropy ≤ Real.logb 2 5 := by
  obtain ⟨st2, hok, _, _, _⟩ := scoreAnswer_spec sc qt ans sets hsets hne hdim st hcons
  have hdne : sets.map (perSetDistribution sc ans) ≠ [] := by
    simp [hne]
  have h5 : ∀ d ∈ sets.map (perSetDistribution sc ans), d.length = 5 := by
    intro d hd
    rcases List.mem_map.mp hd with ⟨aset, _, rfl⟩
    exact perSetDistribution_length sc ans aset
  have hpos : ∀ d ∈ sets.map (perSetDistribution sc ans), ∀ p ∈ d, 0 < p := by
    intro d hd
    rcases List.mem_map.mp hd with ⟨aset, _, rfl⟩
    exact perSetDistribution_pos sc ans aset heps
  have hsum1 : ∀ d ∈ sets.map (perSetDistribution sc ans), d.sum = 1 := by
    intro d hd
    rcases List.mem_map.mp hd with ⟨aset, _, rfl⟩
    exact perSetDistribution_sum sc ans aset heps
  have hexp := avgDistribution_explicit (sets.map (perSetDistribution sc ans))
  have hp0 := avg_entry_pos _ hdne h5 hpos 0 (by norm_num)
  have hp1 := avg_entry_pos _ hdne h5 hpos 1 (by norm_num)
  have hp2 := avg_entry_pos _ hdne h5 hpos 2 (by norm_num)
  have hp3 := avg_entry_pos _ hdne h5 hpos 3 (by norm_num)
  have hp4 := avg_entry_pos _ hdne h5 hpos 4 (by norm_num)
  have hlen0 : ((sets.map (perSetDistribution sc ans)).length : ℝ) ≠ 0 := by
    have := List.length_pos.mpr hdne
    exact_mod_cast Nat.pos_iff_ne_zero.mp this
  have hsum5 := avg_sum_aux ((sets.map (perSetDistribution sc ans)).length : ℝ)
    (sets.map (perSetDistribution sc ans)) h5 hsum1
  rw [div_self hlen0] at hsum5
  rw [show List.range 5 = [0, 1, 2, 3, 4] from rfl] at hsum5
  simp only [List.map_cons, List.map_nil, List.sum_cons, List.sum_nil] at hsum5
  refine ⟨_, st2, hok, ?_, ?_, ?_, ?_⟩
  · show 1 ≤ expectedScoreOf (avgDistribution (sets.map (perSetDistribution sc ans)))
    rw [hexp, expectedScoreOf_five]
    linarith
  · show expectedScoreOf (avgDistribution (sets.map (perSetDistribution sc ans))) ≤ 5
    rw [hexp, expectedScoreOf_five]
    linarith
  · show 0 ≤ entropyOf (avgDistribution (sets.map (perSetDistribution sc ans)))
    rw [hexp]
    exact (entropy_bound_five _ _ _ _ _ hp0 hp1 hp2 hp3 hp4 (by linarith)).1
  · show entropyOf (avgDistribution (sets.map (perSetDistribution sc ans))) ≤ Real.logb 2 5
    rw [hexp]
    exact (entropy_bound_five _ _ _ _ _ hp0 hp1 hp2 hp3 hp4 (by linarith)).2

theorem scoreAnswer_result_bounds_witness :
    ∃ r st2, scoreAnswer (defaultScorer (fun _ => [1, 0])) "trust" "seems okay" initialScoreState
        = .ok (r, st2) ∧
      1 ≤ r.expectedScore ∧ r.expectedScore ≤ 5 ∧
      0 ≤ r.entropy ∧ r.entropy ≤ Real.logb 2 5 :=
  scoreAnswer_result_bounds (defaultScorer (fun _ => [1, 0])) "trust" "seems okay"
    initialScoreState trustAnchorSets (by simp [defaultScorer, DEFAULT_ANCHOR_SETS])
    (by simp [trustAnchorSets]) (fun s1 s2 => rfl) (cacheConsistent_initial _)
    (by norm_num [defaultScorer, defaultEpsilon])

/-- C8: from a fresh scorer, one scoreAnswer call issues exactly one
provider call for the answer text plus one batched call of five
statements per anchor set of the question type; a second call on the
same scorer issues only the answer-text call again: the anchor sets all
hit the cache while the answer embedding is not cached. -/
theorem scoreAnswer_call_pattern (sc : SsrScorer) (qt ans : String) (sets : List AnchorSet)
    (hsets : sc.anchorSets qt = some sets) (hne : sets ≠ []) (hdim : UniformDim sc) :
    ∃ r1 st1 r2 st2,
      scoreAnswer sc qt ans initialScoreState = .ok (r1, st1) ∧
      st1.calls = [ans] :: sets.map anchorStatements ∧
      (∀ batch ∈ sets.map anchorStatements, batch.length = 5) ∧
      scoreAnswer sc qt ans st1 = .ok (r2, st2) ∧
      st2.calls = st1.calls ++ [[ans]] := by
  obtain ⟨st1, hok1, hc1, hcalls1, hsome1⟩ :=
    scoreAnswer_spec sc qt ans sets hsets hne hdim initialScoreState (cacheConsistent_initial sc)
  obtain ⟨st2, hok2, _, hcalls2, _⟩ :=
    scoreAnswer_spec sc qt ans sets hsets hne hdim st1 hc1
  refine ⟨_, st1, _, st2, hok1, ?_, ?_, hok2, ?_⟩
  · rw [hcalls1]
    have h1 : ∀ i ∈ List.range sets.length,
        (if ((initialScoreState.cache).lookup (cacheKey qt i)).isSome then none
         else some (anchorStatements (sets.getD i emptyAnchorSet))) =
        some (anchorStatements (sets.getD i emptyAnchorSet)) := by
      intro i _
      rfl
    rw [List.filterMap_congr h1, filterMap_some_eq_map,
      range_map_getD sets emptyAnchorSet anchorStatements]
    rfl
  · intro batch hb
    rcases List.mem_map.mp hb with ⟨aset, _, rfl⟩
    rfl
  · rw [hcalls2]
    have h2 : (List.range sets.length).filterMap (fun i =>
        if (st1.cache.lookup (cacheKey qt i)).isSome then none
        else some (anchorStatements (sets.getD i emptyAnchorSet))) = [] := by
      apply List.filterMap_eq_nil.mpr
      intro i hi
      rw [if_pos (hsome1 i (List.mem_range.mp hi))]
    rw [h2]
    simp

theorem scoreAnswer_call_pattern_witness :
    ∃ r1 st1 r2 st2,
      scoreAnswer (defaultScorer (fun _ => [1])) "ease" "easy enough" initialScoreState
        = .ok (r1, st1) ∧
      st1.calls = ["easy enough"] :: easeAnchorSets.map anchorStatements ∧
      (∀ batch ∈ easeAnchorSets.map anchorStatements, batch.length = 5) ∧
      scoreAnswer (defaultScorer (fun _ => [1])) "ease" "easy enough" st1 = .ok (r2, st2) ∧
      st2.calls = st1.calls ++ [["easy enough"]] :=
  scoreAnswer_call_pattern (defaultScorer (fun _ => [1])) "ease" "easy enough"
    easeAnchorSets (by simp [defaultScorer, DEFAULT_ANCHOR_SETS]) (by simp [easeAnchorSets])
    (fun s1 s2 => rfl)

section StateIndependence

lemma runSets_preserves (sc : SsrScorer) (qt : String) (aemb : List ℝ) :
    ∀ (idxs : List ℕ) (st : ScoreState) (dists : List (List ℝ)) (st2 : ScoreState),
    CacheConsistent sc st.cache → runSets sc qt aemb idxs st = .ok (dists, st2) →
    CacheConsistent sc st2.cache := by
  intro idxs
  induction idxs with
  | nil =>
    intro st dists st2 hc h
    simp only [runSets] at h
    cases h
    exact hc
  | cons i rest ih =>
    intro st dists st2 hc h
    simp only [runSets] at h
    split at h
    · exact absurd h (by simp)
    · rename_i res st1 heq
      split at h
      · exact absurd h (by simp)
      · rename_i sims heq2
        split at h
        · exact absurd h (by simp)
        · rename_i d3 st3 heq3
          cases h
          exact ih st1 _ _ (getAnchorEmbeddings_preserves sc qt i st res st1 hc heq) heq3

lemma runSets_state_indep (sc : SsrScorer) (qt : String) (aemb : List ℝ) :
    ∀ (idxs : List ℕ) (st st2 : ScoreState),
    CacheConsistent sc st.cache → CacheConsistent sc st2.cache →
    (runSets sc qt aemb idxs st).map Prod.fst = (runSets sc qt aemb idxs st2).map Prod.fst := by
  intro idxs
  induction idxs with
  | nil =>
    intro st st2 _ _
    rfl
  | cons i rest ih =>
    intro st st2 hc hc2
    cases hcat : catalogSet sc qt i with
    | none =>
      simp only [runSets, getAnchorEmbeddings_none sc qt i st hc hcat,
        getAnchorEmbeddings_none sc qt i st2 hc2 hcat]
    | some aset =>
      obtain ⟨st1, hge, hc1, _, _, _⟩ := getAnchorEmbeddings_spec sc qt i st aset hcat hc
      obtain ⟨st1', hge', hc1', _, _, _⟩ := getAnchorEmbeddings_spec sc qt i st2 aset hcat hc2
      simp only [runSets, hge, hge']
      cases hcs : computeSimilarities aemb ((anchorStatements aset).map sc.embedFn) with
      | error e => simp only [hcs]
      | ok sims =>
        simp only [hcs]
        have hih := ih st1 st1' hc1 hc1'
        cases h1 : runSets sc qt aemb rest st1 with
        | error e =>
          cases h2 : runSets sc qt aemb rest st1' with
          | error e2 =>
            rw [h1, h2] at hih
            simp only [Except.map] at hih
            cases hih
            rfl
          | ok p =>
            rw [h1, h2] at hih
            simp [Except.map] at hih
        | ok p =>
          cases h2 : runSets sc qt aemb rest st1' with
          | error e2 =>
            rw [h1, h2] at hih
            simp [Except.map] at hih
          | ok p2 =>
            obtain ⟨d1, s1⟩ := p
            obtain ⟨d2, s2⟩ := p2
            rw [h1, h2] at hih
            simp only [Except.map] at hih
            cases hih
            rfl

lemma scoreAnswer_preserves (sc : SsrScorer) (qt ans : String) (st : ScoreState)
    (r : ScoreResult) (st2 : ScoreState) (hc : CacheConsistent sc st.cache)
    (h : scoreAnswer sc qt ans st = .ok (r, st2)) : CacheConsistent sc st2.cache := by
  simp only [scoreAnswer] at h
  split at h
  · exact absurd h (by simp)
  · rename_i sets heq
    split at h
    · exact absurd h (by simp)
    · split at h
      · exact absurd h (by simp)
      · rename_i dlist st3 heq3
        cases h
        exact runSets_preserves sc qt (sc.embedFn ans) (List.range sets.length)
          { st with calls := st.calls ++ [[ans]] } dlist st2 hc heq3

lemma scoreAnswer_state_indep (sc : SsrScorer) (qt ans : String) (st : ScoreState)
    (hc : CacheConsistent sc st.cache) :
    (scoreAnswer sc qt ans st).map Prod.fst =
      (scoreAnswer sc qt ans initialScoreState).map Prod.fst := by
  cases hcat : sc.anchorSets qt with
  | none => simp [scoreAnswer, hcat]
  | some sets =>
    by_cases hlen : sets.length = 0
    · simp [scoreAnswer, hcat, hlen]
    · simp only [scoreAnswer, hcat]
      rw [if_neg hlen, if_neg hlen]
      have hind := runSets_state_indep sc qt (sc.embedFn ans) (List.range sets.length)
        { st with calls := st.calls ++ [[ans]] }
        { initialScoreState with calls := initialScoreState.calls ++ [[ans]] }
        hc (cacheConsistent_initial sc)
      cases h1 : runSets sc qt (sc.embedFn ans) (List.range sets.length)
          { st with calls := st.calls ++ [[ans]] } with
      | error e =>
        cases h2 : runSets sc qt (sc.embedFn ans) (List.range sets.length)
            { initialScoreState with calls := initialScoreState.calls ++ [[ans]] } with
        | error e2 =>
          rw [h1, h2] at hind
          simp only [Except.map] at hind
          cases hind
          simp only [h1, h2]
        | ok p =>
          rw [h1, h2] at hind
          simp [Except.map] at hind
      | ok p =>
        cases h2 : runSets sc qt (sc.embedFn ans) (List.range sets.length)
            { initialScoreState with calls := initialScoreState.calls ++ [[ans]] } with
        | error e2 =>
          rw [h1, h2] at hind
          simp [Except.map] at hind
        | ok p2 =>
          obtain ⟨d1, s1⟩ := p
          obtain ⟨d2, s2⟩ := p2
          rw [h1, h2] at hind
          simp only [Except.map] at hind
          cases hind
          simp only [h1, h2]
          rfl

end StateIndependence

/-- The result scoreAnswer produces for a question on a fresh scorer:
what each question of a batch effectively gets, since the shared anchor
cache never changes any result (it stays consistent). -/
noncomputable def soloScore (sc : SsrScorer) (qt ans : String) : Except SsrError ScoreResult :=
  (scoreAnswer sc qt ans initialScoreState).map Prod.fst

lemma scoreAllLoop_spec (sc : SsrScorer) (mapping : String → Option String) :
    ∀ (entries : List (String × String)) (st : ScoreState), CacheConsistent sc st.cache →
    (scoreAllLoop sc mapping entries st).1 = entries.filterMap (fun e =>
        match soloScore sc ((mapping e.1).getD e.1) e.2 with
        | .ok r => some (e.1, ⟨r, e.2⟩)
        | .error _ => none) ∧
    (scoreAllLoop sc mapping entries st).2.1 =
      ((scoreAllLoop sc mapping entries st).1.map (fun s => s.2.result.expectedScore)).sum ∧
    (scoreAllLoop sc mapping entries st).2.2.1 =
      ((scoreAllLoop sc mapping entries st).1.map (fun s => s.2.result.entropy)).sum := by
  intro entries
  induction entries with
  | nil =>
    intro st _
    exact ⟨rfl, by simp [scoreAllLoop], by simp [scoreAllLoop]⟩
  | cons ea rest ih =>
    intro st hc
    obtain ⟨qid, answer⟩ := ea
    cases hsa : scoreAnswer sc ((mapping qid).getD qid) answer st with
    | ok pr =>
      obtain ⟨r, st1⟩ := pr
      have hsolo : soloScore sc ((mapping qid).getD qid) answer = .ok r := by
        rw [soloScore, ← scoreAnswer_state_indep sc _ answer st hc, hsa]
        rfl
      have hc1 : CacheConsistent sc st1.cache :=
        scoreAnswer_preserves sc _ answer st r st1 hc hsa
      obtain ⟨ih1, ih2, ih3⟩ := ih st1 hc1
      refine ⟨?_, ?_, ?_⟩
      · simp only [scoreAllLoop, hsa, List.filterMap_cons, hsolo]
        rw [ih1]
      · simp only [scoreAllLoop, hsa, List.filterMap_cons, hsolo, List.map_cons, List.sum_cons]
        rw [ih2]
      · simp only [scoreAllLoop, hsa, List.filterMap_cons, hsolo, List.map_cons, List.sum_cons]
        rw [ih3]
    | error e =>
      have hsolo : soloScore sc ((mapping qid).getD qid) answer = .error e := by
        rw [soloScore, ← scoreAnswer_state_indep sc _ answer st hc, hsa]
        rfl
      obtain ⟨ih1, ih2, ih3⟩ := ih st hc
      refine ⟨?_, ?_, ?_⟩
      · simp only [scoreAllLoop, hsa, List.filterMap_cons, hsolo]
        exact ih1
      · simp only [scoreAllLoop, hsa]
        exact ih2
      · simp only [scoreAllLoop, hsa]
        exact ih3

/-- C3: scoreAllAnswers never propagates a per-question failure: it
returns the scores of exactly the questions whose scoreAnswer call
succeeds (each question's result being independent of the shared anchor
cache), the question count is the size of that successful subset, and
the two averages are the arithmetic means over that subset, defined as 0
rather than a division by zero when no question succeeds. -/
theorem scoreAllAnswers_partial_failure (embedFn : String → List ℝ)
    (entries : List (String × String)) (mapping : String → Option String) :
    (scoreAllAnswers embedFn entries mapping).scores = entries.filterMap (fun e =>
      match soloScore (defaultScorer embedFn) ((mapping e.1).getD e.1) e.2 with
      | .ok r => some (e.1, ⟨r, e.2⟩)
      | .error _ => none) ∧
    (scoreAllAnswers embedFn entries mapping).summary.questionCount =
      (scoreAllAnswers embedFn entries mapping).scores.length ∧
    (scoreAllAnswers embedFn entries mapping).summary.averageExpectedScore =
      (if (scoreAllAnswers embedFn entries mapping).scores.length = 0 then 0
       else ((scoreAllAnswers embedFn entries mapping).scores.map
          (fun s => s.2.result.expectedScore)).sum /
        ((scoreAllAnswers embedFn entries mapping).scores.length : ℝ)) ∧
    (scoreAllAnswers embedFn entries mapping).summary.averageEntropy =
      (if (scoreAllAnswers embedFn entries mapping).scores.length = 0 then 0
       else ((scoreAllAnswers embedFn entries mapping).scores.map
          (fun s => s.2.result.entropy)).sum /
        ((scoreAllAnswers embedFn entries mapping).scores.length : ℝ)) := by
  obtain ⟨h1, h2, h3⟩ := scoreAllLoop_spec (defaultScorer embedFn) mapping entries
    initialScoreState (cacheConsistent_initial _)
  refine ⟨?_, rfl, ?_, ?_⟩
  · simp only [scoreAllAnswers]
    exact h1
  · simp only [scoreAllAnswers]
    by_cases hz : (scoreAllLoop (defaultScorer embedFn) mapping entries initialScoreState).1.length = 0
    · rw [if_pos hz, if_neg (by omega)]
    · rw [if_neg hz, if_pos (by omega), h2]
  · simp only [scoreAllAnswers]
    by_cases hz : (scoreAllLoop (defaultScorer embedFn) mapping entries initialScoreState).1.length = 0
    · rw [if_pos hz, if_neg (by omega)]
    · rw [if_neg hz, if_pos (by omega), h3]

lemma scoreAnswer_ok_catalog (sc : SsrScorer) (qt ans : String) (st : ScoreState)
    (x : ScoreResult × ScoreState) (h : scoreAnswer sc qt ans st = .ok x) :
    ∃ sets, sc.anchorSets qt = some sets := by
  cases hcat : sc.anchorSets qt with
  | none => simp [scoreAnswer, hcat] at h
  | some sets => exact ⟨sets, rfl⟩

/-- C10: scoreAllAnswers always builds its scorer with the built-in
default catalog and default scoring parameters, so every question whose
resolved question type is neither ease nor trust is excluded from the
batch result, whatever the provider, the mapping and the other entries. -/
theorem scoreAllAnswers_excludes_unknown_types (embedFn : String → List ℝ)
    (entries : List (String × String)) (mapping : String → Option String) (qid : String)
    (h1 : (mapping qid).getD qid ≠ "ease") (h2 : (mapping qid).getD qid ≠ "trust") :
    qid ∉ (scoreAllAnswers embedFn entries mapping).scores.map Prod.fst := by
  have hnone : DEFAULT_ANCHOR_SETS ((mapping qid).getD qid) = none := by
    simp [DEFAULT_ANCHOR_SETS, h1, h2]
  simp only [scoreAllAnswers]
  suffices h : ∀ (es : List (String × String)) (st : ScoreState),
      qid ∉ (scoreAllLoop (defaultScorer embedFn) mapping es st).1.map Prod.fst from
    h entries initialScoreState
  intro es
  induction es with
  | nil =>
    intro st
    simp [scoreAllLoop]
  | cons ea rest ih =>
    intro st
    obtain ⟨qid2, answer⟩ := ea
    cases hsa : scoreAnswer (defaultScorer embedFn) ((mapping qid2).getD qid2) answer st with
    | ok pr =>
      obtain ⟨r, st1⟩ := pr
      simp only [scoreAllLoop, hsa, List.map_cons]
      intro hmem
      rcases List.mem_cons.mp hmem with heq | hmem2
      · obtain ⟨sets, hcat⟩ := scoreAnswer_ok_catalog _ _ _ _ _ hsa
        rw [heq] at hnone
        have : DEFAULT_ANCHOR_SETS ((mapping qid2).getD qid2) = some sets := hcat
        rw [hnone] at this
        cases this
      · exact ih st1 hmem2
    | error e =>
      simp only [scoreAllLoop, hsa]
      exact ih st

theorem scoreAllAnswers_excludes_unknown_types_witness :
    "navcheck" ∉ (scoreAllAnswers (fun _ => [1]) [("navcheck", "went fine")]
      (fun _ => none)).scores.map Prod.fst :=
  scoreAllAnswers_excludes_unknown_types (fun _ => [1]) [("navcheck", "went fine")]
    (fun _ => none) "navcheck" (by decide) (by decide)
